import Mathlib

/-!
# notion-site: `pkg/tomarkdown/markdown.go`

A shallow embedding of the Markdown conversion engine: the gallery grouping
policy (`GalleryAction`), the per-type side-information injector (`inject`),
the child accessor (`getChildrenBlocks`), the render step (`GenBlock`), the
block-tree walker (`GenContentBlocks`), the rich text composer
(`ConvertRichText`), the front matter extractor (`injectFrontMatter`,
`WithFrontMatter`), the document generation (`GenerateTo`), the file name of a
download (`saveTo`) and the table conversion (`ConvertTable`).

Conventions of the embedding.

* A Go run-time panic (index out of range, failed type assertion, nil
  dereference) is an explicit `Panic` value.
* The external collaborators (template engine, HTTP download, link-preview
  fetch, URL helpers of package `utils`) are fields of an `Env` record.
* `reflect.TypeOf(block)` is the `BlockType` tag of the block.
* The walker threads a `Walk` state: the `ToMarkdown` receiver plus a log of
  the observable events (render calls, read-more marker writes).
-/

namespace NotionSite

/-! ## Data model -/

/-- The concrete block types of the notion client library, as told apart by
`reflect.TypeOf`. -/
inductive BlockType where
  | paragraph | heading1 | heading2 | heading3
  | bulletedListItem | numberedListItem | toDo | toggle
  | childPage | childDatabase | callout | quote | code | embed
  | image | video | file | pdf | audio | bookmark
  | equation | divider | tableOfContents | breadcrumb
  | columnList | column | table | tableRow
  | linkPreview | linkToPage | syncedBlock | template | unsupported
  deriving DecidableEq, Repr

/-- Go run-time panics that the modelled code can raise. -/
inductive Panic where
  | indexOutOfRange
  | interfaceConversion
  | nilDereference
  deriving DecidableEq, Repr

deriving instance DecidableEq for Except

/-- A Go `error` value, identified by its message. -/
structure Err where
  msg : String
  deriving DecidableEq, Repr

/-- A Go `map[string]V`, as an association list; the first binding of a key
is the current one. -/
abbrev StrMap (V : Type) := List (String × V)

/-- Map read `m[key]`. -/
def StrMap.get {V : Type} (m : StrMap V) (key : String) : Option V :=
  m.lookup key

/-- Map write `m[key] = v`. -/
def StrMap.put {V : Type} (m : StrMap V) (key : String) (v : V) : StrMap V :=
  (key, v) :: m.filter (fun kv => kv.1 != key)

/-- Values stored in the `FrontMatter` map (`map[string]interface{}`). -/
inductive FMValue where
  | str (s : String)
  | strs (l : List String)
  | bool (b : Bool)
  | number (n : Int)
  /-- A `*bool` pointer, `none` being nil. -/
  | boolPtr (p : Option Bool)
  deriving DecidableEq, Repr

/-- Values stored in the shared `extra` map (`map[string]interface{}`). -/
inductive ExtraValue where
  | bool (b : Bool)
  | str (s : String)
  | int (n : Int)
  | strPtr (p : Option String)
  deriving DecidableEq, Repr

/-- Go `notion.Annotations`. -/
structure Annotations where
  Bold : Bool := false
  Italic : Bool := false
  Strikethrough : Bool := false
  Underline : Bool := false
  Code : Bool := false
  Color : String := "default"
  deriving DecidableEq, Repr

/-- Go `notion.Link`. -/
structure Link where
  URL : String
  deriving DecidableEq, Repr

/-- Go `notion.Text`; `Link` is a pointer and may be nil. -/
structure Text where
  Content : String
  Link : Option Link := none
  deriving DecidableEq, Repr

/-- Go `notion.RichTextType`. -/
inductive RichTextType where
  | text | mention | equation | other
  deriving DecidableEq, Repr

/-- Go `notion.RichText`; `Typ` is the field `Type`; `Text` and `Annotations` are
pointers and may be nil. -/
structure RichText where
  Typ : RichTextType := .text
  Text : Option NotionSite.Text := none
  Annotations : Option NotionSite.Annotations := none
  deriving DecidableEq, Repr

/-- Go `notion.FileType`: `"external"`, `"file"`, or any other string. -/
inductive FileType where
  | external | file | other
  deriving DecidableEq, Repr

/-- The type-specific payload of a block that the engine reads.  Pointer
fields are options (`none` is nil). -/
structure Payload where
  /-- Block identifier. -/
  ID : String := ""
  /-- The `has_children` flag reported by `HasChildren()`. -/
  HasChildren : Bool := false
  /-- Media blocks: the field `Type`. -/
  Typ : FileType := .other
  /-- Media blocks: `External.URL`, nil when `External` is nil. -/
  External : Option String := none
  /-- Media blocks: `File.URL`, nil when `File` is nil. -/
  File : Option String := none
  /-- Bookmark and embed blocks: `URL`. -/
  URL : String := ""
  /-- Blocks with rich text: `RichText`. -/
  RichText : List NotionSite.RichText := []
  /-- Callout blocks: `Icon` (nil pointer is `none`) and its `Emoji` pointer. -/
  Icon : Option (Option String) := none
  /-- Table row blocks: `Cells`, the rich text runs of each cell. -/
  Cells : List (List NotionSite.RichText) := []
  deriving DecidableEq, Repr

/-- A `notion.Block`: type tag, payload and the `Children` field of the
concrete struct (empty for a struct without that field). -/
inductive Block where
  | mk (ty : BlockType) (data : Payload) (children : List Block) : Block

/-- Type tag, `reflect.TypeOf(block)`. -/
def Block.ty : Block → BlockType
  | .mk t _ _ => t

/-- Payload of a block. -/
def Block.data : Block → Payload
  | .mk _ d _ => d

/-- The `Children` field of the concrete block struct. -/
def Block.children : Block → List Block
  | .mk _ _ c => c

/-- Go `block.HasChildren()`. -/
def Block.HasChildren (b : Block) : Bool := b.data.HasChildren

/-- Replace the payload of a block (in-place mutation through the pointer). -/
def Block.withData (b : Block) (d : Payload) : Block :=
  .mk b.ty d b.children

/-- Go `MdBlock`.  The `Extra` field of the source aliases the `extra` map of the
`ToMarkdown` receiver (maps are references), so it is not duplicated here:
every write through `mdb.Extra` is a write to `tm.extra`. -/
structure MdBlock where
  Block : NotionSite.Block
  children : List NotionSite.Block := []
  Depth : Int := 0

/-- The `ToMarkdown` receiver.  `ContentBuffer` holds the bytes written so far. -/
structure ToMarkdown where
  FrontMatter : StrMap FMValue := []
  ContentBuffer : String := ""
  ImgSavePath : String := ""
  GallerySavePath : String := ""
  ImgVisitPath : String := ""
  ArticleFolderPath : String := ""
  ContentTemplate : String := ""
  extra : StrMap ExtraValue := []
  deriving DecidableEq, Repr

/-- Result of `opengraph.Fetch` followed by `ToAbsURL`; an image entry is a
pointer (`none` is nil) to a record with a `URL`. -/
structure OpenGraph where
  Title : String
  Description : String
  Image : List (Option String)
  deriving DecidableEq, Repr

/-- External collaborators of the engine. -/
structure Env where
  /-- Go `utils.GetBlockType`: the render-type string of a block. -/
  GetBlockType : Block → String
  /-- Template lookup and execution of `GenBlock` for a render type, a render
  context and the shared extra map: the bytes appended to the content buffer
  and the error, if any. -/
  render : String → MdBlock → StrMap ExtraValue → String × Option Err
  /-- Go `http.Get`: the error, if any. -/
  httpGet : String → Option Err
  /-- Go `saveTo` for a URL and a destination directory: the local file name. -/
  saveTo : String → String → Except Err String
  /-- Go `filepath.Join`. -/
  joinPath : String → String → String
  /-- Go `opengraph.Fetch` and `ToAbsURL`. -/
  fetchOG : String → Except Err OpenGraph
  /-- Go `utils.FindUrlContext` applied to a pattern of package `utils`. -/
  FindUrlContext : String → String → String
  /-- Go `utils.FindTextP`. -/
  FindTextP : String → String → String
  /-- Go `gotool.StrUtils.RemoveSuffix`, first result. -/
  RemoveSuffix : String → String
  RegexYoutube : String
  RegexBili : String
  RegexTwitterUser : String
  RegexTwitterId : String
  Bilibili : String
  Twitter : String
  Gist : String

/-- How a call ends: normal return of a nil error, return of an error, a
run-time panic, or exhaustion of the recursion budget of the model. -/
inductive Outcome where
  | ok
  | error (e : Err)
  | panic (p : Panic)
  | fuel
  deriving DecidableEq, Repr

/-- Observable events of a walk. -/
inductive Event where
  /-- Call of `GenBlock` with this render type and render context; `extra`
  is the content of `block.Extra` at the time of the call. -/
  | dispatch (bType : String) (block : MdBlock) (extra : StrMap ExtraValue)
  /-- The read-more marker was written to the content buffer. -/
  | more

/-- Summary of an event: the render type and block identifier of a dispatch,
or the marker. -/
def Event.key : Event → String × String
  | .dispatch bType block _ => (bType, block.Block.data.ID)
  | .more => ("<!--more-->", "")

/-- The same-type run index that a dispatch passes to the render collaborator. -/
def Event.runIndex : Event → Option ExtraValue
  | .dispatch _ _ extra => extra.get "SameBlockIdx"
  | .more => none

/-- The event is a write of the read-more marker. -/
def Event.isMore : Event → Bool
  | .more => true
  | _ => false

/-- State threaded through the walker: the receiver and the event log
(most recent event last). -/
structure Walk where
  tm : ToMarkdown
  log : List Event := []

/-! ## Capability gating -/

/-- Go `extendedSyntaxBlocks`. -/
def extendedSyntaxBlocks : List BlockType := [.bookmark, .callout]

/-- Go `blockTypeInExtendedSyntaxBlocks`. -/
def blockTypeInExtendedSyntaxBlocks (bType : BlockType) : Bool :=
  extendedSyntaxBlocks.any (fun blockType => blockType = bType)

/-- Go `mediaBlocks`. -/
def mediaBlocks : List BlockType := [.video, .image, .file, .pdf, .audio]

/-- Go `blockTypeMediaBlocks`. -/
def blockTypeMediaBlocks (bType : BlockType) : Bool :=
  mediaBlocks.any (fun blockType => blockType = bType)

/-- Go `New`. -/
def New : ToMarkdown := {}

/-- Go `EnableExtendedSyntax`. -/
def ToMarkdown.EnableExtendedSyntax (tm : ToMarkdown) (target : String) : ToMarkdown :=
  let extra := StrMap.put tm.extra "ExtendedSyntaxEnabled" (.bool true)
  let extra := StrMap.put extra "ExtendedSyntaxTarget" (.str target)
  { tm with extra := extra }

/-- Go `ExtendedSyntaxEnabled`. -/
def ToMarkdown.ExtendedSyntaxEnabled (tm : ToMarkdown) : Bool :=
  match tm.extra.get "ExtendedSyntaxEnabled" with
  | some (.bool v) => v
  | _ => false

/-- Go `shouldSkipRender`. -/
def ToMarkdown.shouldSkipRender (tm : ToMarkdown) (bType : BlockType) : Bool :=
  !tm.ExtendedSyntaxEnabled && blockTypeInExtendedSyntaxBlocks bType

/-! ## Gallery grouping policy -/

/-- Go `reflect.TypeOf(blocks[i])`: bounds-checked slice indexing. -/
def typeAt (blocks : List Block) (i : Int) : Except Panic BlockType :=
  if i < 0 then .error .indexOutOfRange
  else match blocks[i.toNat]? with
    | some b => .ok b.ty
    | none => .error .indexOutOfRange

/-- Go `a && b` where evaluating `b` may panic: `b` is evaluated only when `a`
holds. -/
def andThen (a : Bool) (b : Except Panic Bool) : Except Panic Bool :=
  if a then b else .ok false

/-- Go `imageType == reflect.TypeOf(blocks[i])`. -/
def isImageAt (blocks : List Block) (i : Int) : Except Panic Bool :=
  (typeAt blocks i).map (fun t => decide (t = BlockType.image))

/-- Go `imageType != reflect.TypeOf(blocks[i])`. -/
def notImageAt (blocks : List Block) (i : Int) : Except Panic Bool :=
  (typeAt blocks i).map (fun t => decide (t ≠ BlockType.image))

/-- The conjunction `x && y` of two conditions that may each panic, evaluated
left to right with short circuit. -/
def bothThen (x y : Except Panic Bool) : Except Panic Bool :=
  x.bind (fun a => andThen a y)

/-- Go `GalleryAction`: the action and the gallery folder. -/
def GalleryAction (tm : ToMarkdown) (blocks : List Block) (i : Int) :
    Except Panic (String × String) :=
  if tm.FrontMatter.get "Type" ≠ some (.str "gallery") then .ok ("nothing", "")
  else (notImageAt blocks i).bind fun c2 =>
  if c2 then .ok ("noting", "")
  else if blocks.length = 1 then .ok ("nothing", "")
  else (andThen (decide (i = 0)) (isImageAt blocks (i + 1))).bind fun c4 =>
  if c4 then .ok ("skip", "gallery")
  else (andThen (decide (i = (blocks.length : Int) - 1)) (isImageAt blocks (i - 1))).bind fun c5 =>
  if c5 then .ok ("write", "gallery")
  else (bothThen (notImageAt blocks (i - 1))
      (bothThen (isImageAt blocks i) (isImageAt blocks (i + 1)))).bind fun c6 =>
  if c6 then .ok ("skip", "gallery")
  else (bothThen (isImageAt blocks (i - 1)) (isImageAt blocks (i + 1))).bind fun c7 =>
  if c7 then .ok ("skip", "gallery")
  else (bothThen (isImageAt blocks (i - 1)) (notImageAt blocks (i + 1))).bind fun c8 =>
  if c8 then .ok ("write", "gallery")
  else .ok ("nothing", "")

/-! ## Media download and side-information injectors -/

/-- Go `strings.Contains`. -/
def strContains (s sub : String) : Bool :=
  decide (sub.toList <:+: s.toList)

/-- The closure `download` of `downloadMedia`. -/
def download (env : Env) (tm : ToMarkdown) (imgURL : String) :
    ToMarkdown × Except Err String :=
  let savePath := if tm.GallerySavePath ≠ "" then tm.GallerySavePath else tm.ImgSavePath
  match env.httpGet imgURL with
  | some err => (tm, .error err)
  | none =>
    let saved := env.saveTo imgURL savePath
    let tm := { tm with GallerySavePath := "" }
    match saved with
    | .error err => (tm, .error err)
    | .ok imgFilename =>
      (tm, .ok ((env.joinPath tm.ImgVisitPath imgFilename).replace "\\" "/"))

/-- Go `downloadMedia`.  The five per-type branches of the source are textually
identical; each rewrites the URL selected by `Type` with the result of
`download` (the empty string when `download` fails). -/
def downloadMedia (env : Env) (tm : ToMarkdown) (dynamicMedia : Block) :
    ToMarkdown × Block × Outcome :=
  if blockTypeMediaBlocks dynamicMedia.ty then
    match dynamicMedia.data.Typ with
    | .external =>
      match dynamicMedia.data.External with
      | none => (tm, dynamicMedia, .panic .nilDereference)
      | some url =>
        match download env tm url with
        | (tm, .ok path) =>
          (tm, dynamicMedia.withData { dynamicMedia.data with External := some path }, .ok)
        | (tm, .error err) =>
          (tm, dynamicMedia.withData { dynamicMedia.data with External := some "" }, .error err)
    | .file =>
      match dynamicMedia.data.File with
      | none => (tm, dynamicMedia, .panic .nilDereference)
      | some url =>
        match download env tm url with
        | (tm, .ok path) =>
          (tm, dynamicMedia.withData { dynamicMedia.data with File := some path }, .ok)
        | (tm, .error err) =>
          (tm, dynamicMedia.withData { dynamicMedia.data with File := some "" }, .error err)
    | .other => (tm, dynamicMedia, .ok)
  else (tm, dynamicMedia, .ok)

/-- Go `injectBookmarkInfo`. -/
def injectBookmarkInfo (env : Env) (bookmark : Block) (extra : StrMap ExtraValue) :
    StrMap ExtraValue × Outcome :=
  match env.fetchOG bookmark.data.URL with
  | .error err => (extra, .error err)
  | .ok og =>
    let extra :=
      match og.Image.find? (fun img => img.isSome && img != some "") with
      | some (some url) => extra.put "Image" (.str url)
      | _ => extra
    let extra := extra.put "Title" (.str og.Title)
    let extra := extra.put "Description" (.str og.Description)
    (extra, .ok)

/-- Go `injectVideoInfo`. -/
def injectVideoInfo (env : Env) (video : Block) (extra : StrMap ExtraValue) :
    StrMap ExtraValue × Outcome :=
  match video.data.External with
  | none => (extra, .panic .nilDereference)
  | some videoUrl =>
    let youtube := strContains videoUrl "youtube"
    let plat := if youtube then "youtube" else ""
    let id := if youtube then env.FindUrlContext env.RegexYoutube videoUrl else ""
    let extra := extra.put "Plat" (.str plat)
    let extra := extra.put "Id" (.str id)
    (extra, .ok)

/-- Go `injectEmbedInfo`. -/
def injectEmbedInfo (env : Env) (embed : Block) (extra : StrMap ExtraValue) :
    StrMap ExtraValue × Outcome :=
  let url := embed.data.URL
  if url.utf8ByteSize = 0 then (extra, .ok)
  else
    let plat := ""
    let (url, plat) :=
      if strContains url env.Bilibili then (env.FindUrlContext env.RegexBili url, "bilibili")
      else (url, plat)
    let (url, plat, extra) :=
      if strContains url env.Twitter then
        let user := env.FindUrlContext env.RegexTwitterUser url
        (env.FindUrlContext env.RegexTwitterId url, "twitter", extra.put "User" (.str user))
      else (url, plat, extra)
    let (url, plat) :=
      if strContains url env.Gist then
        (" ".intercalate ((env.FindTextP url env.Gist).splitOn "/"), "gist")
      else (url, plat)
    let extra := extra.put "Url" (.str url)
    let extra := extra.put "Plat" (.str plat)
    (extra, .ok)

/-- Go `injectFileInfo`. -/
def injectFileInfo (env : Env) (file : Block) (extra : StrMap ExtraValue) :
    StrMap ExtraValue × Outcome :=
  let url : Except Panic String :=
    if file.ty = .file ∨ file.ty = .pdf ∨ file.ty = .audio then
      match file.data.Typ with
      | .external =>
        match file.data.External with
        | none => .error .nilDereference
        | some u => .ok u
      | .file =>
        match file.data.File with
        | none => .error .nilDereference
        | some u => .ok u
      | .other => .ok ""
    else .ok ""
  match url with
  | .error p => (extra, .panic p)
  | .ok url =>
    let extra := extra.put "Url" (.str url)
    let extra := extra.put "FileName" (.str (env.RemoveSuffix url))
    (extra, .ok)

/-- The loop of `injectCalloutInfo`: `text += richText.Text.Content`. -/
def calloutText : List RichText → String → Except Panic String
  | [], text => .ok text
  | richText :: rest, text =>
    match richText.Text with
    | none => .error .nilDereference
    | some t => calloutText rest (text ++ t.Content)

/-- Go `injectCalloutInfo`. -/
def injectCalloutInfo (callout : Block) (extra : StrMap ExtraValue) :
    StrMap ExtraValue × Outcome :=
  match calloutText callout.data.RichText "" with
  | .error p => (extra, .panic p)
  | .ok text =>
    match callout.data.Icon with
    | none => (extra, .panic .nilDereference)
    | some emoji =>
      let extra := extra.put "Emoji" (.strPtr emoji)
      let extra := extra.put "Text" (.str text)
      (extra, .ok)

/-- Go `todo`. -/
def todo (_video : Block) (extra : StrMap ExtraValue) : StrMap ExtraValue × Outcome :=
  (extra, .ok)

/-- Go `inject`: resolve the type-specific side information of the block at
`index`.  Returns the receiver, the render context (whose block has been
mutated by a download) and how the call ended. -/
def inject (env : Env) (tm : ToMarkdown) (mdb : MdBlock) (blocks : List Block)
    (index : Int) : ToMarkdown × MdBlock × Outcome :=
  let block := mdb.Block
  let viaExtra (r : StrMap ExtraValue × Outcome) : ToMarkdown × MdBlock × Outcome :=
    ({ tm with extra := r.1 }, mdb, r.2)
  match block.ty with
  | .image =>
    match GalleryAction tm blocks index with
    | .error p => (tm, mdb, .panic p)
    | .ok (act, folder) =>
      let tm :=
        if act = "skip" ∨ act = "write" then
          { tm with GallerySavePath := env.joinPath tm.ImgSavePath folder }
        else tm
      match downloadMedia env tm block with
      | (tm, block, err) => (tm, { mdb with Block := block }, err)
  | .bookmark => viaExtra (injectBookmarkInfo env block tm.extra)
  | .video => viaExtra (injectVideoInfo env block tm.extra)
  | .file =>
    match downloadMedia env tm block with
    | (tm, block, .panic p) => (tm, { mdb with Block := block }, .panic p)
    | (tm, block, _) =>
      -- `err` is overwritten by the result of `injectFileInfo`
      match injectFileInfo env block tm.extra with
      | (extra, err) => ({ tm with extra := extra }, { mdb with Block := block }, err)
  | .linkPreview => viaExtra (todo block tm.extra)
  | .linkToPage => viaExtra (todo block tm.extra)
  | .embed => viaExtra (injectEmbedInfo env block tm.extra)
  | .callout => viaExtra (injectCalloutInfo block tm.extra)
  | .breadcrumb => viaExtra (todo block tm.extra)
  | .childDatabase => viaExtra (todo block tm.extra)
  | .childPage => viaExtra (todo block tm.extra)
  | .pdf =>
    match downloadMedia env tm block with
    | (tm, block, .panic p) => (tm, { mdb with Block := block }, .panic p)
    | (tm, block, _) =>
      -- `err` is overwritten by the result of `injectFileInfo`
      match injectFileInfo env block tm.extra with
      | (extra, err) => ({ tm with extra := extra }, { mdb with Block := block }, err)
  | .syncedBlock => viaExtra (todo block tm.extra)
  | .template => viaExtra (todo block tm.extra)
  | .audio => viaExtra (injectFileInfo env block tm.extra)
  | _ => (tm, mdb, .ok)

/-! ## Children accessor and render step -/

/-- The type assertion `block.(*T)`: panics unless the block has type `T`. -/
def assertType (want : BlockType) (block : Block) : Except Panic Block :=
  if block.ty = want then .ok block else .error .interfaceConversion

/-- Go `getChildrenBlocks`: sets `block.children`.  Each case of the source is a
type assertion followed by a read of the `Children` field; the second
`CodeBlock` case of the source can never be selected. -/
def getChildrenBlocks (block : MdBlock) : Except Panic MdBlock :=
  let assign (asserted : Except Panic Block) : Except Panic MdBlock :=
    asserted.map (fun b => { block with children := b.children })
  match block.Block.ty with
  | .quote => assign (assertType .quote block.Block)
  | .toggle => assign (assertType .paragraph block.Block)
  | .paragraph => assign (assertType .callout block.Block)
  | .callout => assign (assertType .bulletedListItem block.Block)
  | .bulletedListItem => assign (assertType .quote block.Block)
  | .numberedListItem => assign (assertType .numberedListItem block.Block)
  | .toDo => assign (assertType .toDo block.Block)
  | .code => assign (assertType .code block.Block)
  | .table => assign (assertType .table block.Block)
  | .syncedBlock => assign (assertType .syncedBlock block.Block)
  | .template => assign (assertType .template block.Block)
  | _ => .ok block

/-- The read-more marker. -/
def moreTag : String := "<!--more-->"

/-- Go `GenBlock`, with the recursive call `tm.GenContentBlocks` passed as the
argument `walkChildren`. -/
def GenBlockWith (env : Env)
    (walkChildren : List Block → Int → Walk → Walk × Outcome)
    (bType : String) (block : MdBlock) (addMoreTag skip : Bool) (w : Walk) :
    Walk × Outcome :=
  let w : Walk := { w with log := w.log ++ [Event.dispatch bType block w.tm.extra] }
  let out := env.render bType block w.tm.extra
  let w : Walk := { w with tm := { w.tm with ContentBuffer := w.tm.ContentBuffer ++ out.1 } }
  match out.2 with
  | some err => (w, .error err)
  | none =>
    if !skip then
      let w : Walk :=
        if addMoreTag then
          { tm := { w.tm with ContentBuffer := w.tm.ContentBuffer ++ moreTag },
            log := w.log ++ [Event.more] }
        else w
      if block.Block.HasChildren then
        let block := { block with Depth := block.Depth + 1 }
        match getChildrenBlocks block with
        | .error p => (w, .panic p)
        | .ok block => walkChildren block.children block.Depth w
      else (w, .ok)
    else (w, .ok)

/-! ## Block tree walker -/

/-- The local variables of `GenContentBlocks` that live across iterations. -/
structure Locals where
  sameBlockIdx : Int := 0
  lastBlockType : Option BlockType := none
  hasMoreTag : Bool := false
  deriving DecidableEq, Repr

/-- The closure `generate` of `GenContentBlocks`, called with the current
values of the variables it captures. -/
def generate (gen : String → MdBlock → Bool → Bool → Walk → Walk × Outcome)
    (currentBlockType : String) (mdb : MdBlock) (addMoreTag : Bool) (block : Block)
    (l : Locals) (w : Walk) : Locals × Walk × Outcome :=
  match gen currentBlockType mdb addMoreTag false w with
  | (w, .ok) => ({ l with lastBlockType := some block.ty }, w, .ok)
  | (w, r) => (l, w, r)

/-- A call `generate(...)` whose returned error is not looked at: the loop
goes on after an error; a panic still unwinds. -/
def discardError : Outcome → Outcome
  | .error _ => .ok
  | r => r

/-- Where an iteration of the loop of `GenContentBlocks` stands once the
gallery classification of line 261 has been attempted. -/
inductive Classified where
  /-- The iteration ended before a classification was obtained (`continue`,
  `return err` or a panic): loop state and outcome. -/
  | ended (l : Locals) (w : Walk) (r : Outcome)
  /-- Classification: `GalleryAction` returned `act` for the block; `mdb` and
  `addMoreTag` are the render context and the marker flag at that point. -/
  | action (l : Locals) (w : Walk) (mdb : MdBlock) (addMoreTag : Bool) (act : String)

/-- First part of one iteration of the loop of `GenContentBlocks`, for the
block at `index`: from the top of the loop body to the call of `GalleryAction`
(lines 215 to 261). -/
def visitClassify (env : Env) (gen : String → MdBlock → Bool → Bool → Walk → Walk × Outcome)
    (blocks : List Block) (depth : Int) (index : Nat) (block : Block)
    (l : Locals) (w : Walk) : Classified :=
  let currentBlockType := env.GetBlockType block
  if w.tm.shouldSkipRender block.ty then .ended l w .ok
  else
    let mdb : MdBlock := { Block := block, Depth := depth }
    let sameBlockIdx := l.sameBlockIdx + 1
    let sameBlockIdx := if some block.ty ≠ l.lastBlockType then 0 else sameBlockIdx
    let l : Locals := { l with sameBlockIdx := sameBlockIdx }
    let w : Walk :=
      { w with tm := { w.tm with extra := w.tm.extra.put "SameBlockIdx" (.int sameBlockIdx) } }
    if w.tm.FrontMatter.get "IsSetting" = some (.bool true) ∧ block.ty = .code then
      match generate gen currentBlockType mdb false block l w with
      | (l, w, r) => .ended l w (discardError r)
    else
      match inject env w.tm mdb blocks index with
      | (tm, mdb, .ok) =>
        let w : Walk := { w with tm := tm }
        let fire := decide (w.tm.ContentBuffer.utf8ByteSize > 60) && !l.hasMoreTag
        let addMoreTag := if fire then decide (w.tm.ContentBuffer.utf8ByteSize > 60) else false
        let l : Locals := if fire then { l with hasMoreTag := true } else l
        match GalleryAction w.tm blocks index with
        | .error p => .ended l w (.panic p)
        | .ok (act, _) => .action l w mdb addMoreTag act
      | (tm, _, r) => .ended l { w with tm := tm } r

/-- One iteration of the loop of `GenContentBlocks`, for the block at `index`:
`visitClassify`, then lines 262 to 270.  The outcome `.ok` means that the loop
goes on with the next sibling; any other outcome ends the call with it. -/
def visit (env : Env) (gen : String → MdBlock → Bool → Bool → Walk → Walk × Outcome)
    (blocks : List Block) (depth : Int) (index : Nat) (block : Block)
    (l : Locals) (w : Walk) : Locals × Walk × Outcome :=
  match visitClassify env gen blocks depth index block l w with
  | .ended l w r => (l, w, r)
  | .action l w mdb addMoreTag act =>
    if act = "skip" then (l, w, .ok)
    else
      let currentBlockType := if act = "write" then "gallery" else env.GetBlockType block
      match generate gen currentBlockType mdb addMoreTag block l w with
      | (l, w, r) => (l, w, discardError r)

/-- The loop of `GenContentBlocks` from position `index`, `rest` being the
blocks not yet visited. -/
def walkFrom (env : Env) (gen : String → MdBlock → Bool → Bool → Walk → Walk × Outcome)
    (blocks : List Block) (depth : Int) :
    Nat → List Block → Locals → Walk → Locals × Walk × Outcome
  | _, [], l, w => (l, w, .ok)
  | index, block :: rest, l, w =>
    match visit env gen blocks depth index block l w with
    | (l, w, .ok) => walkFrom env gen blocks depth (index + 1) rest l w
    | r => r

/-- Go `GenContentBlocks`, with `GenBlock` passed as the argument `gen`. -/
def GenContentBlocksWith (env : Env)
    (gen : String → MdBlock → Bool → Bool → Walk → Walk × Outcome)
    (blocks : List Block) (depth : Int) (w : Walk) : Walk × Outcome :=
  (walkFrom env gen blocks depth 0 blocks {} w).2

/-- Go `GenContentBlocks`.  `GenBlock` and `GenContentBlocks` call each other;
the recursion is tied by a budget of nesting levels: with budget `n + 1` the walk
may descend `n` levels below the sequence it is given, and a descent beyond the
budget ends with `Outcome.fuel`. -/
def GenContentBlocks (env : Env) : Nat → List Block → Int → Walk → Walk × Outcome
  | 0 => fun _ _ w => (w, .fuel)
  | n + 1 => GenContentBlocksWith env (GenBlockWith env (GenContentBlocks env n))

/-- Go `GenBlock`, at nesting budget `n` for the walk of the children. -/
def GenBlock (env : Env) (n : Nat) :
    String → MdBlock → Bool → Bool → Walk → Walk × Outcome :=
  GenBlockWith env (GenContentBlocks env n)

/-! ## Sample collaborators and blocks, for running the walker on examples -/

/-- Render-type names used by `sampleEnv`. -/
def sampleTypeName : BlockType → String
  | .paragraph => "paragraph"
  | .heading1 => "heading_1"
  | .image => "image"
  | .file => "file"
  | .quote => "quote"
  | _ => "block"

/-- A rendered fragment of 61 bytes. -/
def sampleText : String :=
  "0123456789012345678901234567890123456789012345678901234567890"

/-- Sample collaborators: there is no template for the render type
`heading_1`; every other render type writes `sampleText`; fetching the URL
`unreachable` fails and every other download succeeds. -/
def sampleEnv : Env where
  GetBlockType := fun b => sampleTypeName b.ty
  render := fun bType _ _ =>
    if bType = "heading_1" then ("", some ⟨"template: pattern matches no files"⟩)
    else (sampleText, none)
  httpGet := fun url => if url = "unreachable" then some ⟨"no such host"⟩ else none
  saveTo := fun url _ => .ok url
  joinPath := fun dir name => dir ++ "/" ++ name
  fetchOG := fun _ => .error ⟨"no such host"⟩
  FindUrlContext := fun _ url => url
  FindTextP := fun url _ => url
  RemoveSuffix := fun url => url
  RegexYoutube := "youtube"
  RegexBili := "bilibili"
  RegexTwitterUser := "user"
  RegexTwitterId := "id"
  Bilibili := "bilibili"
  Twitter := "twitter"
  Gist := "gist"

/-- A paragraph block without children. -/
def sampleParagraph (id : String) : Block := .mk .paragraph { ID := id } []

/-- A heading block. -/
def sampleHeading (id : String) : Block := .mk .heading1 { ID := id } []

/-- An image block with an external URL. -/
def sampleImage (url : String) : Block :=
  .mk .image { ID := url, Typ := .external, External := some url } []

/-- A file block with an external URL. -/
def sampleFile (url : String) : Block :=
  .mk .file { ID := url, Typ := .external, External := some url } []

/-- A quote block with children. -/
def sampleQuote (id : String) (children : List Block) : Block :=
  .mk .quote { ID := id, HasChildren := true } children

/-- A receiver in gallery mode. -/
def galleryTm : ToMarkdown := { FrontMatter := [("Type", .str "gallery")] }

/-! ## Nesting depth of a block sequence -/

mutual
/-- Number of nesting levels of a block: 1 for a block without children. -/
def Block.height : Block → Nat
  | .mk _ _ children => heightList children + 1
/-- Number of nesting levels of a block sequence: 0 for the empty sequence. -/
def heightList : List Block → Nat
  | [] => 0
  | block :: rest => max block.height (heightList rest)
end

/-! ## Vocabulary of the statements -/

/-- Block `k` of the sequence exists and is an image block. -/
def imageAt (blocks : List Block) (k : Nat) : Prop :=
  (blocks[k]?).map Block.ty = some BlockType.image

instance (blocks : List Block) (k : Nat) : Decidable (imageAt blocks k) := by
  unfold imageAt; infer_instance

/-- The receiver is in gallery mode: `FrontMatter["Type"] == "gallery"`. -/
def galleryMode (tm : ToMarkdown) : Prop :=
  tm.FrontMatter.get "Type" = some (.str "gallery")

instance (tm : ToMarkdown) : Decidable (galleryMode tm) := by
  unfold galleryMode; infer_instance

/-! ## Annotation formatter and rich text composer -/

/-- Go `unicode.IsSpace`: the white-space characters that `strings.TrimSpace`
removes. -/
def isSpace (c : Char) : Bool :=
  let n := c.toNat
  n = 0x09 || n = 0x0A || n = 0x0B || n = 0x0C || n = 0x0D || n = 0x20 ||
  n = 0x85 || n = 0xA0 || n = 0x1680 || (0x2000 ≤ n && n ≤ 0x200A) ||
  n = 0x2028 || n = 0x2029 || n = 0x202F || n = 0x205F || n = 0x3000

/-- Go `strings.TrimSpace` on the characters of a string: leading and trailing
white space removed. -/
def trimSpaceChars (cs : List Char) : List Char :=
  ((cs.dropWhile isSpace).reverse.dropWhile isSpace).reverse

/-- Go `strings.TrimSpace`. -/
def TrimSpace (s : String) : String :=
  String.mk (trimSpaceChars s.data)

/-- The characters that `fmt.Sprintf` writes for a format and string
arguments.  The verb `%s` takes the next argument (`%!s(MISSING)` when none is
left), `%%` is a percent sign, arguments left over are reported as `EXTRA`;
no other verb occurs in the formats of this program. -/
def sprintfChars : List Char → List String → List Char
  | [], [] => []
  | [], arg :: args =>
    ("%!(EXTRA " ++ ", ".intercalate ((arg :: args).map (fun a => "string=" ++ a)) ++ ")").data
  | '%' :: 's' :: rest, arg :: args => arg.data ++ sprintfChars rest args
  | '%' :: 's' :: rest, [] => "%!s(MISSING)".data ++ sprintfChars rest []
  | '%' :: '%' :: rest, args => '%' :: sprintfChars rest args
  | c :: rest, args => c :: sprintfChars rest args

/-- Go `fmt.Sprintf` with string arguments. -/
def Sprintf (format : String) (args : List String) : String :=
  String.mk (sprintfChars format.data args)

/-- The table `colors` of `textColor`. -/
def colors : StrMap String :=
  [("gray", "rgba(120, 119, 116, 1)"),
   ("brown", "rgba(159, 107, 83, 1)"),
   ("orange", "rgba(217, 115, 13, 1)"),
   ("yellow", "rgba(203, 145, 47, 1)"),
   ("green", "rgba(68, 131, 97, 1)"),
   ("blue", "rgba(51, 126, 169, 1)"),
   ("purble", "rgba(144, 101, 176, 1)"),
   ("pink", "rgba(193, 76, 138, 1)"),
   ("red", "rgba(212, 76, 71, 1)")]

/-- The table `backgroundColors` of `textColor`. -/
def backgroundColors : StrMap String :=
  [("gray", "rgba(241, 241, 239, 1)"),
   ("brown", "rgba(244, 238, 238, 1)"),
   ("orange", "rgba(251, 236, 221, 1)"),
   ("yellow", "rgba(251, 243, 219, 1)"),
   ("green", "rgba(237, 243, 236, 1)"),
   ("blue", "rgba(231, 243, 248, 1)"),
   ("purble", "rgba(244, 240, 247, 0.8)"),
   ("pink", "rgba(249, 238, 243, 0.8)"),
   ("red", "rgba(253, 235, 236, 1)")]

/-- The pieces of a character list between occurrences of `sep`. -/
def splitChars (sep : Char) : List Char → List (List Char)
  | [] => [[]]
  | c :: cs =>
    if c = sep then [] :: splitChars sep cs
    else
      match splitChars sep cs with
      | [] => [[c]]
      | piece :: pieces => (c :: piece) :: pieces

/-- Go `strings.Split` for a separator of one character. -/
def Split (s : String) (sep : Char) : List String :=
  (splitChars sep s.data).map String.mk

/-- Read of a `map[string]string`: the empty string for a missing key. -/
def strAt (m : StrMap String) (key : String) : String :=
  (m.get key).getD ""

/-- Go `textColor`.  The two `fmt.Sprintf` calls have constant formats with two
`%s` verbs and are written as concatenations. -/
def textColor (a : Annotations) (text : String) : String :=
  if a.Color = "default" then text
  else if strContains a.Color "_background" then
    let parts := Split a.Color '_'
    let color := parts.headD ""
    "<span style=\"background-color: " ++ strAt backgroundColors color ++ ";\">" ++ text
      ++ "</span>"
  else
    let color := a.Color
    "<span style=\"color: " ++ strAt colors color ++ ";\">" ++ text ++ "</span>"

/-- Go `emphFormat`; the argument is a pointer (`none` is nil). -/
def emphFormat (a : Option Annotations) : String :=
  match a with
  | none => "%s"
  | some a =>
    if a.Code then "`%s`"
    else
      let s :=
        if a.Bold && a.Italic then " ***%s***"
        else if a.Bold then " **%s**"
        else if a.Italic then " *%s*"
        else "%s"
      let s :=
        if a.Underline then "__" ++ s ++ "__"
        else if a.Strikethrough then "~~" ++ s ++ "~~"
        else s
      textColor a s

/-- Go `ConvertRich`.  The inner `fmt.Sprintf("[%s](%s)", ...)` has a constant
format and is written as a concatenation. -/
def ConvertRich (t : RichText) : Except Panic String :=
  match t.Typ with
  | .text =>
    match t.Text with
    | none => .error .nilDereference
    | some text =>
      match text.Link with
      | some link =>
        .ok (Sprintf (emphFormat t.Annotations)
          ["[" ++ text.Content ++ "](" ++ link.URL ++ ")"])
      | none =>
        if TrimSpace text.Content = "" then .ok ""
        else .ok (Sprintf (emphFormat t.Annotations) [TrimSpace text.Content])
  | _ => .ok ""

/-- The loop of `ConvertRichText`: each run is written to the buffer. -/
def convertRichTextFrom : List RichText → String → Except Panic String
  | [], buf => .ok buf
  | word :: rest, buf =>
    match ConvertRich word with
    | .error p => .error p
    | .ok s => convertRichTextFrom rest (buf ++ s)

/-- Go `ConvertRichText`. -/
def ConvertRichText (t : List RichText) : Except Panic String :=
  convertRichTextFrom t ""

/-! ## Front matter extractor -/

/-- Go `notion.SelectOptions`. -/
structure SelectOptions where
  ID : String := ""
  Name : String
  Color : String := ""
  deriving DecidableEq, Repr

set_option linter.dupNamespace false in
/-- Go `notion.File`, an element of a files property.  `File` is the URL held
by the pointer field `File` and `External` the URL held by the pointer field
`External` (`none` is nil): a file hosted by Notion has `File` set, an
external file has `External` set. -/
structure File where
  Name : String := ""
  Typ : FileType := .file
  File : Option String := none
  External : Option String := none
  deriving DecidableEq, Repr

/-- The dynamic value that `property.Value()` returns, by the cases of the
type switch of `injectFrontMatter`.  Pointers are options (`none` is nil); a
time is given by the string that `Format` produces for it; a `*float64` by the
number it points to. -/
inductive PropValue where
  /-- Case `*notion.SelectOptions`. -/
  | select (prop : Option SelectOptions)
  /-- Case `[]notion.SelectOptions`. -/
  | multiSelect (prop : List SelectOptions)
  /-- Case `[]notion.RichText`; `none` is the nil slice. -/
  | richText (prop : Option (List RichText))
  /-- Case `*time.Time`. -/
  | time (prop : Option String)
  /-- Case `*notion.Date`, given by its formatted `Start`. -/
  | date (prop : Option String)
  /-- Case `*notion.User`, given by its `Name`. -/
  | user (prop : Option String)
  /-- Case `*notion.File`, given by its `File` pointer and the URL in it. -/
  | file (prop : Option (Option String))
  /-- Case `[]notion.File`. -/
  | files (prop : List File)
  /-- Case `*notion.FileExternal`, given by its `URL`. -/
  | fileExternal (prop : Option String)
  /-- Case `*notion.FileFile`, given by its `URL`. -/
  | fileFile (prop : Option String)
  /-- Case `*notion.FileBlock`, given by its `File` pointer and the URL in it. -/
  | fileBlock (prop : Option (Option String))
  /-- Case `*string`. -/
  | string (prop : Option String)
  /-- Case `*float64`. -/
  | float (prop : Option Int)
  /-- Any other dynamic type: the `default` case. -/
  | other
  deriving DecidableEq, Repr

/-- Go `notion.DatabasePageProperty`, as far as the engine reads it: `Typ` is
the field `Type`, `Value` the result of the method `Value()`. -/
structure DatabasePageProperty where
  Typ : String := ""
  Title : List RichText := []
  Checkbox : Option Bool := none
  Value : PropValue := .other
  deriving DecidableEq, Repr

/-- The loop of the `[]notion.SelectOptions` case: `opts = append(opts,
options.Name)`. -/
def selectNames : List SelectOptions → List String → List String
  | [], opts => opts
  | options :: rest, opts => selectNames rest (opts ++ [options.Name])

/-- The loop of the `[]notion.File` case of `injectFrontMatter`, at position
`i` of a list of length `len`: the element at `len - 1` sets `fmv` to
`fmt.Sprintf("image|%s", image.File.URL)`. -/
def filesLoop (len : Nat) : Nat → List File → Option FMValue → Except Panic (Option FMValue)
  | _, [], fmv => .ok fmv
  | i, image :: rest, fmv =>
    if (i : Int) = (len : Int) - 1 then
      match image.File with
      | none => .error .nilDereference
      | some url => filesLoop len (i + 1) rest (some (.str ("image|" ++ url)))
    else filesLoop len (i + 1) rest fmv

/-- The value `fmv` that the type switch of `injectFrontMatter` computes;
`none` is the nil interface. -/
def frontMatterValue (property : DatabasePageProperty) : Except Panic (Option FMValue) :=
  match property.Value with
  | .select prop => .ok (prop.map (fun p => .str p.Name))
  | .multiSelect prop => .ok (some (.strs (selectNames prop [])))
  | .richText prop =>
    match prop with
    | none => .ok none
    | some t => (ConvertRichText t).map (fun s => some (.str s))
  | .time prop => .ok (prop.map .str)
  | .date prop => .ok (prop.map .str)
  | .user prop =>
    match prop with
    | none => .error .nilDereference
    | some name => .ok (some (.str name))
  | .file prop =>
    match prop with
    | some (some url) => .ok (some (.str url))
    | _ => .error .nilDereference
  | .files prop => filesLoop prop.length 0 prop none
  | .fileExternal prop =>
    match prop with
    | none => .error .nilDereference
    | some url => .ok (some (.str url))
  | .fileFile prop =>
    match prop with
    | none => .error .nilDereference
    | some url => .ok (some (.str url))
  | .fileBlock prop =>
    match prop with
    | some (some url) => .ok (some (.str url))
    | _ => .error .nilDereference
  | .string prop =>
    match prop with
    | none => .error .nilDereference
    | some s => .ok (some (.str s))
  | .float prop => .ok (prop.map .number)
  | .other =>
    if property.Typ = "checkbox" then .ok (some (.boolPtr property.Checkbox))
    else .ok none

/-- Go `injectFrontMatter`: the receiver after the call, or the panic. -/
def injectFrontMatter (tm : ToMarkdown) (key : String) (property : DatabasePageProperty) :
    Except Panic ToMarkdown :=
  match frontMatterValue property with
  | .error p => .error p
  | .ok none => .ok tm
  | .ok (some fmv) => .ok { tm with FrontMatter := tm.FrontMatter.put key fmv }

/-! ## Document generation -/

/-- External collaborators of `GenerateTo` and `GenFrontMatter`. -/
structure OutEnv where
  /-- Decoding of the front-matter map into the `FrontMatter` struct
  (`mapstructure.Decode`, whose error is ignored) followed by `yaml.Marshal`:
  the YAML text, `none` when `Marshal` fails. -/
  marshal : StrMap FMValue → Option String
  /-- Copy of a text to the writer (`io.Copy`): the error, if any. -/
  write : String → Option Err
  /-- Parsing of the content template file and its execution on the receiver:
  the text written, or the error. -/
  execute : String → ToMarkdown → Except Err String
  /-- Go `strings.ToLower`. -/
  ToLower : String → String

/-- Go `downloadFrontMatterImage`. -/
def downloadFrontMatterImage (env : Env) (tm : ToMarkdown) (url : String) :
    ToMarkdown × String :=
  let image : Block := .mk .file { Typ := .external, File := none, External := some url } []
  match downloadMedia env tm image with
  | (tm, image, .ok) => (tm, image.data.External.getD "")
  | (tm, _, _) => (tm, "")

/-- The loop of `GenFrontMatter` over the entries of the front-matter map, in
the order of the association list (Go leaves the order of a map iteration
open): the receiver, `imageKey` and `imagePath`. -/
def frontMatterImages (env : Env) :
    List (String × FMValue) → ToMarkdown → String → String → ToMarkdown × String × String
  | [], tm, imageKey, imagePath => (tm, imageKey, imagePath)
  | (key, value) :: rest, tm, imageKey, imagePath =>
    match value with
    | .str v =>
      if "image|".isPrefixOf v then
        match downloadFrontMatterImage env tm (v.drop 6) with
        | (tm, path) => frontMatterImages env rest tm key path
      else frontMatterImages env rest tm imageKey imagePath
    | _ => frontMatterImages env rest tm imageKey imagePath

/-- Go `GenFrontMatter`: the receiver, the text handed to the writer so far and
the error returned. -/
def GenFrontMatter (env : Env) (out : OutEnv) (tm : ToMarkdown) (written : String) :
    ToMarkdown × String × Outcome :=
  if tm.FrontMatter.length = 0 then (tm, written, .ok)
  else
    match frontMatterImages env tm.FrontMatter tm "" "" with
    | (tm, imageKey, imagePath) =>
      match out.marshal tm.FrontMatter with
      | none => (tm, written, .ok)
      | some frontMatters =>
        let buffer := "---\n" ++ frontMatters
        let buffer :=
          if imagePath.utf8ByteSize > 0 then
            buffer ++ (out.ToLower imageKey ++ ": \"" ++ imagePath ++ "\"\n")
          else buffer
        let buffer := buffer ++ "---\n"
        match out.write buffer with
        | some err => (tm, written, .error err)
        | none => (tm, written ++ buffer, .ok)

/-- Go `GenerateTo`, at nesting budget `n` for the walk: the walk state, the
text handed to the writer and the error returned. -/
def GenerateTo (env : Env) (out : OutEnv) (n : Nat) (blocks : List Block) (w : Walk)
    (written : String) : Walk × String × Outcome :=
  let front : ToMarkdown × String × Outcome :=
    if w.tm.FrontMatter.get "IsSetting" ≠ some (.bool true) then
      GenFrontMatter env out w.tm written
    else (w.tm, written, .ok)
  match front with
  | (tm, written, .ok) =>
    match GenContentBlocks env n blocks 0 { w with tm := tm } with
    | (w, .ok) =>
      if w.tm.ContentTemplate ≠ "" then
        match out.execute w.tm.ContentTemplate w.tm with
        | .error err => (w, written, .error err)
        | .ok text => (w, written ++ text, .ok)
      else
        match out.write w.tm.ContentBuffer with
        | some err => (w, written, .error err)
        | none => (w, written ++ w.tm.ContentBuffer, .ok)
    | (w, r) => (w, written, r)
  | (tm, written, r) => ({ w with tm := tm }, written, r)

/-- Sample output collaborators: every step succeeds. -/
def sampleOut : OutEnv where
  marshal := fun _ => some "title: sample\n"
  write := fun _ => none
  execute := fun _ tm => .ok tm.ContentBuffer
  ToLower := fun s => s

/-! ## Vocabulary of the statements: nesting levels -/

/-- The block `b` occurs at nesting level `k` below the sequence `blocks`:
level 0 holds the members of the sequence, level `k + 1` the blocks at level
`k` below the children of a member. -/
inductive AtLevel : Nat → List Block → Block → Prop where
  | member {blocks : List Block} {b : Block} (h : b ∈ blocks) : AtLevel 0 blocks b
  | nested {blocks : List Block} {c b : Block} {k : Nat} (h : c ∈ blocks)
      (hb : AtLevel k c.children b) : AtLevel (k + 1) blocks b

/-- The block `a` is the block `b` of the document, up to the rewriting of its
URLs by a download: same type, same identifier, same children. -/
def sameNode (a b : Block) : Prop :=
  a.ty = b.ty ∧ a.data.ID = b.data.ID ∧ a.children = b.children

/-- A dispatch event has the depth of its block: the render context holds a
block of the tree below `blocks` and its `Depth` is `d` plus the nesting level
of that block.  Marker events carry no depth. -/
def Event.atDepth (d : Int) (blocks : List Block) : Event → Prop
  | .dispatch _ mdb _ => ∃ k b, AtLevel k blocks b ∧ sameNode mdb.Block b ∧ mdb.Depth = d + k
  | .more => True

/-- The `Depth` that a dispatch passes to the render collaborator. -/
def Event.depth : Event → Option Int
  | .dispatch _ mdb _ => some mdb.Depth
  | .more => none

/-! ## Vocabulary of the statements: the extended-syntax gate -/

/-- The entry of the extra map that `ExtendedSyntaxEnabled` reads. -/
def extFlag (tm : ToMarkdown) : Option ExtraValue :=
  tm.extra.get "ExtendedSyntaxEnabled"

/-- The event is not the dispatch of a block of an extended-syntax type. -/
def Event.notExtended : Event → Prop
  | .dispatch _ mdb _ => mdb.Block.ty ∉ extendedSyntaxBlocks
  | .more => True

/-- What a step of the walk from `w` to `w'` keeps: the extended-syntax flag
is unchanged, the log only grows, and when the flag is off no new event is the
dispatch of a block of an extended-syntax type. -/
def gateKept (w w' : Walk) : Prop :=
  extFlag w'.tm = extFlag w.tm ∧
  ∃ rest, w'.log = w.log ++ rest ∧
    (w.tm.ExtendedSyntaxEnabled = false → ∀ e ∈ rest, Event.notExtended e)

/-! ## Vocabulary of the statements: rich text -/

/-- A whitespace-only text run without a hyperlink: a run of type text whose
`Text` is set, carries no link, and whose content holds white space only. -/
def whitespaceRun (t : RichText) : Prop :=
  t.Typ = .text ∧ ∃ text, t.Text = some text ∧ text.Link = none ∧
    ∀ c ∈ text.Content.data, isSpace c = true

/-- The triple-emphasis pattern wrapped in underline markup. -/
def tripleUnderlined : String := "__ ***%s***__"

/-! ## Vocabulary of the statements: one iteration of the walker -/

/-- The receiver at the call of `inject` in the iteration for `block`: the run
index of lines 228 to 232 has been stored in the extra map. -/
def atInject (block : Block) (l : Locals) (tm : ToMarkdown) : ToMarkdown :=
  let sameBlockIdx := if some block.ty ≠ l.lastBlockType then 0 else l.sameBlockIdx + 1
  { tm with extra := tm.extra.put "SameBlockIdx" (.int sameBlockIdx) }

/-- The iteration for `block` takes the settings branch of lines 243 to 248:
the receiver is in settings mode and the block is a code block. -/
def settingCode (tm : ToMarkdown) (block : Block) : Prop :=
  tm.FrontMatter.get "IsSetting" = some (.bool true) ∧ block.ty = .code

/-- A bookmark block. -/
def sampleBookmark (id : String) : Block := .mk .bookmark { ID := id, URL := id } []

/-! ## Page front matter -/

/-- Go `notion.Cover`: `Typ` is the field `Type`; `File` is the URL held by the
pointer field `File` and `External` the URL held by the pointer field
`External` (`none` is nil). -/
structure Cover where
  Typ : FileType := .external
  File : Option String := none
  External : Option String := none
  deriving DecidableEq, Repr

/-- The dynamic type of the field `Properties` of a page: the properties of a
page of a database, keyed by name, or the properties of a page that is not in a
database. -/
inductive PageProperties where
  | database (pageProps : StrMap DatabasePageProperty)
  | page
  deriving DecidableEq, Repr

/-- Go `notion.Page`, as far as `WithFrontMatter` reads it. -/
structure Page where
  Cover : Option NotionSite.Cover := none
  Properties : PageProperties
  deriving DecidableEq, Repr

/-- Go `injectFrontMatterCover`: the receiver after the call, or the panic. -/
def injectFrontMatterCover (env : Env) (tm : ToMarkdown) (cover : Option Cover) :
    Except Panic ToMarkdown :=
  match cover with
  | none => .ok tm
  | some cover =>
    let image : Block :=
      .mk .file { Typ := cover.Typ, File := cover.File, External := cover.External } []
    match downloadMedia env tm image with
    | (_, _, .panic p) => .error p
    | (tm, image, .ok) =>
      match image.data.Typ with
      | .external =>
        match image.data.External with
        | none => .error .nilDereference
        | some url => .ok { tm with FrontMatter := tm.FrontMatter.put "image" (.str url) }
      | .file =>
        match image.data.File with
        | none => .error .nilDereference
        | some url => .ok { tm with FrontMatter := tm.FrontMatter.put "image" (.str url) }
      | .other => .ok tm
    | (tm, _, _) => .ok tm

/-- The loop of `WithFrontMatter` over the entries of `pageProps`, in the order
of the association list (Go leaves the order of a map iteration open). -/
def injectProperties :
    List (String × DatabasePageProperty) → ToMarkdown → Except Panic ToMarkdown
  | [], tm => .ok tm
  | (fmKey, property) :: rest, tm =>
    match injectFrontMatter tm fmKey property with
    | .error p => .error p
    | .ok tm => injectProperties rest tm

/-- Map read `pageProps[key]`: the zero value for a missing key. -/
def propertyAt (pageProps : StrMap DatabasePageProperty) (key : String) :
    DatabasePageProperty :=
  (pageProps.get key).getD {}

/-- Go `WithFrontMatter`: the receiver after the call, or the panic. -/
def WithFrontMatter (env : Env) (tm : ToMarkdown) (page : Page) : Except Panic ToMarkdown :=
  match injectFrontMatterCover env tm page.Cover with
  | .error p => .error p
  | .ok tm =>
    match page.Properties with
    | .page => .error .interfaceConversion
    | .database pageProps =>
      match injectProperties pageProps tm with
      | .error p => .error p
      | .ok tm =>
        match ConvertRichText (propertyAt pageProps "Name").Title with
        | .error p => .error p
        | .ok title => .ok { tm with FrontMatter := tm.FrontMatter.put "Title" (.str title) }

/-! ## Local file name of a download -/

/-- Go `*url.URL`, as far as `saveTo` reads it: the field `Path` and the result
of the method `Hostname()`. -/
structure URL where
  Path : String
  Hostname : String
  deriving DecidableEq, Repr

/-- External collaborators of `saveTo`. -/
structure FsEnv where
  /-- Go `url.Parse`. -/
  Parse : String → Except Err URL
  /-- Go `os.MkdirAll` for a directory: the error, if any. -/
  MkdirAll : String → Option Err
  /-- Go `filepath.Join`. -/
  Join : String → String → String
  /-- Go `os.Create` for a path: the error, if any. -/
  Create : String → Option Err
  /-- Go `io.Copy` of the reader to the file created at a path: the error, if
  any. -/
  Copy : String → Option Err

/-- Go `strings.HasPrefix`. -/
def HasPrefix (s pre : String) : Bool :=
  pre.data.isPrefixOf s.data

/-- The loop of `filepath.Ext` (with `/` as the path separator), scanning the
characters from the end: `acc` holds the characters already passed. -/
def extFrom : List Char → List Char → List Char
  | [], _ => []
  | c :: rest, acc =>
    if c = '/' then []
    else if c = '.' then '.' :: acc
    else extFrom rest (c :: acc)

/-- Go `filepath.Ext`: the suffix of the last path element that starts at its
last dot, empty when there is no dot. -/
def Ext (path : String) : String :=
  String.mk (extFrom path.data.reverse [])

/-- Go `s[i]` on a slice of strings: bounds-checked indexing. -/
def strAtIndex (s : List String) (i : Int) : Except Panic String :=
  if i < 0 then .error .indexOutOfRange
  else match s[i.toNat]? with
    | some x => .ok x
    | none => .error .indexOutOfRange

/-- The statements `gen file name` of `saveTo` (lines 444 to 448): the value of
`imageFilename`, or the panic. -/
def imageFilename (u : URL) : Except Panic String :=
  let splitPaths := Split u.Path '/'
  (strAtIndex splitPaths ((splitPaths.length : Int) - 1)).bind fun imageFilename =>
  if HasPrefix imageFilename "Untitled." then
    (strAtIndex splitPaths ((splitPaths.length : Int) - 2)).bind fun parent =>
    .ok (parent ++ Ext u.Path)
  else .ok imageFilename

/-- Go `saveTo`: the file name and the error returned, or the panic. -/
def saveTo (fs : FsEnv) (rawURL distDir : String) : Except Panic (String × Option Err) :=
  match fs.Parse rawURL with
  | .error err => .ok ("", some ⟨"malformed url: " ++ err.msg⟩)
  | .ok u =>
    (imageFilename u).bind fun imageFilename =>
    match fs.MkdirAll distDir with
    | some err => .ok ("", some ⟨distDir ++ ": " ++ err.msg⟩)
    | none =>
      let filename := Sprintf "%s_%s" [u.Hostname, imageFilename]
      match fs.Create (fs.Join distDir filename) with
      | some err => .ok ("", some ⟨"couldn't create image file: " ++ err.msg⟩)
      | none => .ok (filename, fs.Copy (fs.Join distDir filename))

/-- Sample file system.  A URL `https://host/path` parses into the host and the
path from the first `/` after the host on (empty when there is none); any
other string parses as a relative reference, which is all path and has no
host.  Every file operation succeeds. -/
def sampleFs : FsEnv where
  Parse := fun rawURL =>
    if "https://".data.isPrefixOf rawURL.data then
      match splitChars '/' (rawURL.data.drop 8) with
      | [] => .ok ⟨"", ""⟩
      | [host] => .ok ⟨"", String.mk host⟩
      | host :: rest => .ok ⟨"/" ++ "/".intercalate (rest.map String.mk), String.mk host⟩
    else .ok ⟨rawURL, ""⟩
  MkdirAll := fun _ => none
  Join := fun dir name => dir ++ "/" ++ name
  Create := fun _ => none
  Copy := fun _ => none

/-! ## Table conversion -/

/-- A counted loop of `ConvertTable`, `for i := 0; i < l; i++`: each round
appends `piece` to `head`, and the round `i == l-1` appends the end of the
line. -/
def headLoop (l : Nat) (piece : String) (head : String) : String :=
  (List.range l).foldl
    (fun head i =>
      let head := head ++ piece
      if (i : Int) = (l : Int) - 1 then head ++ "|\n" else head)
    head

/-- The inner loop of `ConvertRow` over the runs of one cell. -/
def cellLoop : List RichText → String → Except Panic String
  | [], rowMd => .ok rowMd
  | rich :: rest, rowMd =>
    match ConvertRich rich with
    | .error p => .error p
    | .ok a => cellLoop rest (rowMd ++ (" " ++ a ++ " |"))

/-- The outer loop of `ConvertRow` at position `i` of `len` cells. -/
def rowLoop (len : Nat) : Nat → List (List RichText) → String → Except Panic String
  | _, [], rowMd => .ok rowMd
  | i, cell :: rest, rowMd =>
    let rowMd := if i = 0 then rowMd ++ "|" else rowMd
    match cellLoop cell rowMd with
    | .error p => .error p
    | .ok rowMd =>
      let rowMd := if (i : Int) = (len : Int) - 1 then rowMd ++ "\n" else rowMd
      rowLoop len (i + 1) rest rowMd

/-- Go `ConvertRow`, for the table row block that `r` points to. -/
def ConvertRow (r : Block) : Except Panic String :=
  rowLoop r.data.Cells.length 0 r.data.Cells ""

/-- The loop of `ConvertTable` over the rows: each row is asserted to be a
table row block and its line is written to the buffer. -/
def tableRows : List Block → String → Except Panic String
  | [], buf => .ok buf
  | row :: rest, buf =>
    if row.ty = .tableRow then
      match ConvertRow row with
      | .error p => .error p
      | .ok line => tableRows rest (buf ++ line)
    else .error .interfaceConversion

/-- Go `ConvertTable`. -/
def ConvertTable (rows : List Block) : Except Panic String :=
  match rows with
  | [] => .ok ""
  | first :: _ =>
    if first.ty = .tableRow then
      let l := first.data.Cells.length
      let head := headLoop l "| " ""
      let head := headLoop l "| - " head
      tableRows rows head
    else .error .interfaceConversion

/-- A text run with the given content. -/
def sampleRun (content : String) : RichText := { Text := some { Content := content } }

/-- A table row block with the given cells. -/
def sampleRow (cells : List (List RichText)) : Block := .mk .tableRow { Cells := cells } []

/-! ## Vocabulary of the statements: table lines -/

/-- One column per cell: for each cell in order a blank, the composed rich text
of the cell, a blank and `|`. -/
def cellColumns : List (List RichText) → Except Panic String
  | [] => .ok ""
  | cell :: rest =>
    match ConvertRichText cell with
    | .error p => .error p
    | .ok text =>
      match cellColumns rest with
      | .error p => .error p
      | .ok cols => .ok (" " ++ text ++ " |" ++ cols)

/-- The row line that has one column per cell: `|`, then the columns of the
cells, then the end of the line. -/
def rowLinePerCell (cells : List (List RichText)) : Except Panic String :=
  (cellColumns cells).map fun cols => "|" ++ cols ++ "\n"

/-- Number of columns of a table line: the number of `|` after the first. -/
def columns (line : String) : Nat :=
  line.data.count '|' - 1

/-! ## Gallery grouping policy: lemmas -/

theorem typeAt_natCast (blocks : List Block) (k : Nat) :
    typeAt blocks (k : Int) =
      match blocks[k]? with
      | some b => .ok b.ty
      | none => .error .indexOutOfRange := by
  simp [typeAt]

theorem isImageAt_of_imageAt {blocks : List Block} {k : Nat} (h : imageAt blocks k) :
    isImageAt blocks (k : Int) = .ok true := by
  unfold imageAt at h
  rw [isImageAt, typeAt_natCast]
  cases hb : blocks[k]? with
  | none => simp [hb] at h
  | some b => simp [hb] at h; simp [Except.map, h]

theorem notImageAt_of_imageAt {blocks : List Block} {k : Nat} (h : imageAt blocks k) :
    notImageAt blocks (k : Int) = .ok false := by
  unfold imageAt at h
  rw [notImageAt, typeAt_natCast]
  cases hb : blocks[k]? with
  | none => simp [hb] at h
  | some b => simp [hb] at h; simp [Except.map, h]

theorem isImageAt_of_not {blocks : List Block} {k : Nat} (hk : k < blocks.length)
    (h : ¬ imageAt blocks k) : isImageAt blocks (k : Int) = .ok false := by
  unfold imageAt at h
  rw [isImageAt, typeAt_natCast]
  cases hb : blocks[k]? with
  | none => simp [List.getElem?_eq_none_iff] at hb; omega
  | some b => simp [hb] at h; simp [Except.map, h]

theorem notImageAt_of_not {blocks : List Block} {k : Nat} (hk : k < blocks.length)
    (h : ¬ imageAt blocks k) : notImageAt blocks (k : Int) = .ok true := by
  unfold imageAt at h
  rw [notImageAt, typeAt_natCast]
  cases hb : blocks[k]? with
  | none => simp [List.getElem?_eq_none_iff] at hb; omega
  | some b => simp [hb] at h; simp [Except.map, h]

theorem imageAt_lt {blocks : List Block} {k : Nat} (h : imageAt blocks k) :
    k < blocks.length := by
  unfold imageAt at h
  by_contra hk
  have : blocks[k]? = none := List.getElem?_eq_none_iff.mpr (by omega)
  simp [this] at h

/-- An image with a non-image block on each side, away from both ends of the
sequence, is passed through. -/
theorem GalleryAction_isolated_interior (tm : ToMarkdown) (blocks : List Block) (i : Nat)
    (hg : galleryMode tm) (h0 : 0 < i) (hn : i + 1 < blocks.length)
    (hi : imageAt blocks i) (hp : ¬ imageAt blocks (i - 1)) (hs : ¬ imageAt blocks (i + 1)) :
    GalleryAction tm blocks (i : Int) = .ok ("nothing", "") := by
  have hlen : blocks.length ≠ 1 := by omega
  have e1 : (i : Int) + 1 = ((i + 1 : Nat) : Int) := by push_cast; rfl
  have e2 : (i : Int) - 1 = ((i - 1 : Nat) : Int) := by omega
  have hi0 : decide ((i : Int) = 0) = false := by simp; omega
  have hd : decide ((i : Int) = (blocks.length : Int) - 1) = false := by simp; omega
  have hp1 := isImageAt_of_not (by omega) hp
  have hp2 := notImageAt_of_not (by omega) hp
  have hs1 := isImageAt_of_not hn hs
  rw [← e2] at hp1 hp2
  rw [← e1] at hs1
  unfold galleryMode at hg
  unfold GalleryAction
  simp only [hg, ne_eq, not_true_eq_false, if_false, notImageAt_of_imageAt hi, hlen,
    Except.bind, Bool.false_eq_true, isImageAt_of_imageAt hi, hi0, hd, andThen, bothThen,
    hp1, hp2, hs1, if_true]

/-! ## Gallery grouping policy: claims -/

/-- C1. In gallery mode, in a maximal run of at least two consecutive image
blocks occupying positions `a..b` of a sibling sequence (bounded on the left by
the start of the sequence or a non-image block, on the right by the end of the
sequence or a non-image block), `GalleryAction` returns `write` at the last
position `b` of the run and `skip` at every other position of the run. -/
theorem GalleryAction_image_run (tm : ToMarkdown) (blocks : List Block) (a b i : Nat)
    (hg : galleryMode tm) (hab : a < b)
    (himg : ∀ k, a ≤ k → k ≤ b → imageAt blocks k)
    (hleft : a = 0 ∨ ¬ imageAt blocks (a - 1))
    (hright : b + 1 = blocks.length ∨ ¬ imageAt blocks (b + 1))
    (hai : a ≤ i) (hib : i ≤ b) :
    GalleryAction tm blocks (i : Int) =
      .ok (if i = b then ("write", "gallery") else ("skip", "gallery")) := by
  have hi := himg i hai hib
  have hblen := imageAt_lt (himg b (by omega) (le_refl b))
  have hlen : blocks.length ≠ 1 := by omega
  have e1 : (i : Int) + 1 = ((i + 1 : Nat) : Int) := by push_cast; rfl
  unfold galleryMode at hg
  unfold GalleryAction
  simp only [hg, ne_eq, not_true_eq_false, if_false, notImageAt_of_imageAt hi, hlen,
    Except.bind, Bool.false_eq_true, isImageAt_of_imageAt hi]
  by_cases h0 : i = 0
  · -- first element, next is an image
    have hn : imageAt blocks (i + 1) := himg (i + 1) (by omega) (by omega)
    have hne : i ≠ b := by omega
    have hn' := isImageAt_of_imageAt hn
    rw [← e1] at hn'
    have hi0 : decide ((i : Int) = 0) = true := by simp [h0]
    simp only [hi0, andThen, if_true, hn', if_neg hne]
  · have e2 : (i : Int) - 1 = ((i - 1 : Nat) : Int) := by omega
    have hi0 : decide ((i : Int) = 0) = false := by simp [h0]
    simp only [hi0, andThen, Bool.false_eq_true, if_false]
    by_cases hlast : i + 1 = blocks.length
    · -- last element, previous is an image
      have hb : i = b := by omega
      have hp : imageAt blocks (i - 1) := himg (i - 1) (by omega) (by omega)
      have hp' := isImageAt_of_imageAt hp
      rw [← e2] at hp'
      have hd : decide ((i : Int) = (blocks.length : Int) - 1) = true := by
        simp; omega
      simp only [hd, hp', if_true, if_pos hb]
    · have hd : decide ((i : Int) = (blocks.length : Int) - 1) = false := by
        simp; omega
      simp only [hd, Bool.false_eq_true, if_false, bothThen, Except.bind, andThen]
      have hnext : i + 1 < blocks.length := by omega
      by_cases hia : i = a
      · -- start of an interior run
        have hne : i ≠ b := by omega
        have hn : imageAt blocks (i + 1) := himg (i + 1) (by omega) (by omega)
        have hn' := isImageAt_of_imageAt hn
        rw [← e1] at hn'
        have hp : ¬ imageAt blocks (i - 1) := by
          rcases hleft with h | h
          · omega
          · rwa [hia]
        have hp' := notImageAt_of_not (by omega) hp
        rw [← e2] at hp'
        simp only [hp', hn', if_true, if_neg hne]
      · have hp : imageAt blocks (i - 1) := himg (i - 1) (by omega) (by omega)
        have hp1 := isImageAt_of_imageAt hp
        have hp2 := notImageAt_of_imageAt hp
        rw [← e2] at hp1 hp2
        simp only [hp1, hp2, Bool.false_eq_true, if_false, if_true]
        by_cases hb : i = b
        · -- end of a run
          have hn : ¬ imageAt blocks (i + 1) := by
            rcases hright with h | h
            · omega
            · rwa [hb]
          have hn1 := isImageAt_of_not hnext hn
          have hn2 := notImageAt_of_not hnext hn
          rw [← e1] at hn1 hn2
          simp only [hn1, hn2, Bool.false_eq_true, if_false, if_true, if_pos hb]
        · -- middle of a run
          have hn : imageAt blocks (i + 1) := himg (i + 1) (by omega) (by omega)
          have hn' := isImageAt_of_imageAt hn
          rw [← e1] at hn'
          simp only [hn', if_true, if_neg hb]

/-- Witness for C1: in `[paragraph, image, image, paragraph]` the run occupies
positions 1..2; position 1 is skipped. -/
theorem GalleryAction_image_run_witness :
    GalleryAction { FrontMatter := [("Type", .str "gallery")] }
        [.mk .paragraph {} [], .mk .image {} [], .mk .image {} [], .mk .paragraph {} []]
        ((1 : Nat) : Int) =
      .ok (if 1 = 2 then ("write", "gallery") else ("skip", "gallery")) :=
  GalleryAction_image_run _ _ 1 2 1 (by decide) (by decide)
    (by intro k h1 h2; interval_cases k <;> decide) (by decide) (by decide)
    (by decide) (by decide)

/-- C2 (failing input). In gallery mode, for `[image, paragraph]` at index 0
(an image whose only neighbour is not an image) `GalleryAction` reads
`blocks[i-1]` with `i = 0` and panics with an index out of range; the same
holds for `[paragraph, image]` at index 1, where it reads `blocks[i+1]`. -/
theorem GalleryAction_isolated_edge_panics :
    GalleryAction { FrontMatter := [("Type", .str "gallery")] }
        [.mk .image {} [], .mk .paragraph {} []] 0 = .error .indexOutOfRange ∧
    GalleryAction { FrontMatter := [("Type", .str "gallery")] }
        [.mk .paragraph {} [], .mk .image {} []] 1 = .error .indexOutOfRange := by
  constructor <;> rfl

/-- C10. When the document is not in gallery mode, `GalleryAction` returns the
pass-through action `nothing` for every sibling sequence and every index. -/
theorem GalleryAction_not_gallery (tm : ToMarkdown) (blocks : List Block) (i : Int)
    (h : ¬ galleryMode tm) : GalleryAction tm blocks i = .ok ("nothing", "") := by
  unfold galleryMode at h
  simp [GalleryAction, h]

/-- Witness for C10: a receiver made by `New` is not in gallery mode. -/
theorem GalleryAction_not_gallery_witness :
    ¬ galleryMode New ∧
      GalleryAction New [.mk .image {} [], .mk .image {} []] 0 = .ok ("nothing", "") :=
  ⟨by decide, GalleryAction_not_gallery New _ 0 (by decide)⟩

/-! ## Children accessor: claims -/

/-- The cases of `getChildrenBlocks` that assert the type of their own case
yield the block's own children. -/
theorem getChildrenBlocks_own_children (ty : BlockType) (data : Payload)
    (cs kids : List Block) (depth : Int)
    (h : ty ∈ [BlockType.quote, .numberedListItem, .toDo, .code, .table, .syncedBlock,
      .template]) :
    getChildrenBlocks ⟨.mk ty data cs, kids, depth⟩ = .ok ⟨.mk ty data cs, cs, depth⟩ := by
  simp only [List.mem_cons, List.mem_singleton, List.not_mem_nil, or_false] at h
  rcases h with rfl | rfl | rfl | rfl | rfl | rfl | rfl <;> rfl


/-- C8 (failing input). `getChildrenBlocks` asserts the wrong concrete type in
four cases: for a toggle, paragraph, callout or bulleted list item block the
type assertion fails and the call panics, whatever the block holds; and a
column block is matched by no reachable case, so its children are not read.  A
walk over a paragraph that reports children therefore panics. -/
theorem getChildrenBlocks_wrong_cases (data : Payload) (cs kids : List Block) (depth : Int) :
    getChildrenBlocks ⟨.mk .toggle data cs, kids, depth⟩ = .error .interfaceConversion ∧
    getChildrenBlocks ⟨.mk .paragraph data cs, kids, depth⟩ = .error .interfaceConversion ∧
    getChildrenBlocks ⟨.mk .callout data cs, kids, depth⟩ = .error .interfaceConversion ∧
    getChildrenBlocks ⟨.mk .bulletedListItem data cs, kids, depth⟩
      = .error .interfaceConversion ∧
    getChildrenBlocks ⟨.mk .column data cs, kids, depth⟩
      = .ok ⟨.mk .column data cs, kids, depth⟩ ∧
    (GenContentBlocks sampleEnv 2
      [.mk .paragraph { HasChildren := true } [sampleParagraph "child"]] 0 { tm := New }).2
      = .panic .interfaceConversion := by
  refine ⟨rfl, rfl, rfl, rfl, rfl, ?_⟩
  decide

/-! ## The nesting budget: enough budget gives the result -/

theorem Block.height_eq (b : Block) : b.height = heightList b.children + 1 := by
  cases b; simp [Block.height, Block.children]

theorem heightList_le_of_mem {b : Block} {bs : List Block} (h : b ∈ bs) :
    b.height ≤ heightList bs := by
  induction bs with
  | nil => cases h
  | cons x xs ih =>
    simp only [heightList]
    rcases List.mem_cons.mp h with h | h
    · subst h; exact le_max_left _ _
    · exact le_trans (ih h) (le_max_right _ _)

theorem downloadMedia_children (env : Env) (tm : ToMarkdown) (b : Block) :
    (downloadMedia env tm b).2.1.children = b.children := by
  unfold downloadMedia
  split
  · split
    · split
      · rfl
      · split <;> cases b <;> rfl
    · split
      · rfl
      · split <;> cases b <;> rfl
    · rfl
  · rfl

theorem downloadMedia_ne_fuel (env : Env) (tm : ToMarkdown) (b : Block) :
    (downloadMedia env tm b).2.2 ≠ .fuel := by
  unfold downloadMedia
  split
  · split
    · split
      · simp
      · split <;> simp
    · split
      · simp
      · split <;> simp
    · simp
  · simp

/-- Function `inject` keeps the children of the block and of the render
context. -/
theorem inject_children (env : Env) (tm : ToMarkdown) (mdb : MdBlock) (blocks : List Block)
    (index : Int) :
    (inject env tm mdb blocks index).2.1.Block.children = mdb.Block.children ∧
    (inject env tm mdb blocks index).2.1.children = mdb.children := by
  have hd := downloadMedia_children env
  unfold inject
  simp only
  split
  · split
    · exact ⟨rfl, rfl⟩
    · simp only
      exact ⟨hd _ _, trivial⟩
  all_goals first
    | exact ⟨rfl, rfl⟩
    | skip
  all_goals
    have hd' := hd tm mdb.Block
    split <;> simp_all
theorem getChildrenBlocks_children (b b' : MdBlock) (h : getChildrenBlocks b = .ok b') :
    b'.children = b.Block.children ∨ b'.children = b.children := by
  unfold getChildrenBlocks assertType at h
  simp only [Except.map] at h
  split at h
  all_goals first
    | (cases h; right; rfl)
    | skip
  all_goals
    split at h
    · cases h
    · rename_i v hv
      split at hv <;> cases hv <;> cases h <;> exact Or.inl rfl

/-- Function `GenBlock` does not depend on how the walker treats sequences
nested deeper than the children of the block. -/
theorem GenBlockWith_congr (env : Env) (k : Nat)
    (walk walk' : List Block → Int → Walk → Walk × Outcome)
    (hw : ∀ bs d w, heightList bs < k → walk bs d w = walk' bs d w)
    (bType : String) (block : MdBlock) (addMoreTag skip : Bool) (w : Walk)
    (hb : heightList block.Block.children < k) (hc : block.children = []) :
    GenBlockWith env walk bType block addMoreTag skip w
      = GenBlockWith env walk' bType block addMoreTag skip w := by
  unfold GenBlockWith
  simp only
  split
  · rfl
  · split
    · split
      · split
        · rfl
        · rename_i blk hg
          apply hw
          rcases getChildrenBlocks_children _ _ hg with h | h
          · rw [h]; exact hb
          · rw [h]; simp only [hc, heightList]; omega
      · rfl
    · rfl

/-- Function `GenBlock` does not run out of budget when the walk of the children
does not. -/
theorem GenBlockWith_ne_fuel (env : Env) (k : Nat)
    (walk : List Block → Int → Walk → Walk × Outcome)
    (hw : ∀ bs d w, heightList bs < k → (walk bs d w).2 ≠ .fuel)
    (bType : String) (block : MdBlock) (addMoreTag skip : Bool) (w : Walk)
    (hb : heightList block.Block.children < k) (hc : block.children = []) :
    (GenBlockWith env walk bType block addMoreTag skip w).2 ≠ .fuel := by
  unfold GenBlockWith
  simp only
  split
  · simp
  · split
    · split
      · split
        · simp
        · rename_i blk hg
          apply hw
          rcases getChildrenBlocks_children _ _ hg with h | h
          · rw [h]; exact hb
          · rw [h]; simp only [hc, heightList]; omega
      · simp
    · simp
theorem injectFileInfo_ne_fuel (env : Env) (b : Block) (extra : StrMap ExtraValue) :
    (injectFileInfo env b extra).2 ≠ .fuel := by
  unfold injectFileInfo
  simp only
  split <;> simp

theorem inject_ne_fuel (env : Env) (tm : ToMarkdown) (mdb : MdBlock) (blocks : List Block)
    (index : Int) : (inject env tm mdb blocks index).2.2 ≠ .fuel := by
  have hd := downloadMedia_ne_fuel env
  have hf := injectFileInfo_ne_fuel env
  unfold inject
  simp only
  split
  · split
    · simp
    · simp only
      exact hd _ _
  · unfold injectBookmarkInfo
    split <;> simp
  · unfold injectVideoInfo
    split <;> simp
  · split
    · simp
    · exact hf _ _
  · simp [todo]
  · simp [todo]
  · unfold injectEmbedInfo
    simp only
    split <;> simp
  · unfold injectCalloutInfo
    split
    · simp
    · split <;> simp
  · simp [todo]
  · simp [todo]
  · simp [todo]
  · split
    · simp
    · exact hf _ _
  · simp [todo]
  · simp [todo]
  · exact hf _ _
  · simp

theorem discardError_ne_fuel {r : Outcome} (h : r ≠ .fuel) : discardError r ≠ .fuel := by
  cases r <;> simp_all [discardError]

theorem generate_congr (gen gen' : String → MdBlock → Bool → Bool → Walk → Walk × Outcome)
    (bType : String) (mdb : MdBlock) (addMoreTag : Bool) (block : Block)
    (l : Locals) (w : Walk)
    (h : gen bType mdb addMoreTag false w = gen' bType mdb addMoreTag false w) :
    generate gen bType mdb addMoreTag block l w = generate gen' bType mdb addMoreTag block l w := by
  unfold generate
  rw [h]

theorem generate_ne_fuel (gen : String → MdBlock → Bool → Bool → Walk → Walk × Outcome)
    (bType : String) (mdb : MdBlock) (addMoreTag : Bool) (block : Block)
    (l : Locals) (w : Walk)
    (h : (gen bType mdb addMoreTag false w).2 ≠ .fuel) :
    (generate gen bType mdb addMoreTag block l w).2.2 ≠ .fuel := by
  unfold generate
  split
  · simp
  · rename_i hg; rw [hg] at h; exact h

/-- The render context at the classification holds the children of the block. -/
theorem visitClassify_action_ctx (env : Env)
    (gen : String → MdBlock → Bool → Bool → Walk → Walk × Outcome)
    (blocks : List Block) (depth : Int) (index : Nat) (block : Block) (l : Locals) (w : Walk)
    (l' : Locals) (w' : Walk) (mdb : MdBlock) (addMoreTag : Bool) (act : String)
    (h : visitClassify env gen blocks depth index block l w = .action l' w' mdb addMoreTag act) :
    mdb.Block.children = block.children ∧ mdb.children = [] := by
  unfold visitClassify at h
  by_cases hgate : w.tm.shouldSkipRender block.ty = true
  · simp only [hgate, if_true] at h
    cases h
  · simp only [hgate, Bool.false_eq_true, if_false] at h
    generalize (if some block.ty ≠ l.lastBlockType then (0 : Int) else l.sameBlockIdx + 1)
      = idx at h
    by_cases hs : w.tm.FrontMatter.get "IsSetting" = some (.bool true) ∧ block.ty = .code
    · simp only [hs, and_self, if_true] at h
      cases h
    · simp only [hs, if_false] at h
      split at h
      · rename_i tm mdb0 hinj
        have hc := inject_children env
          { w.tm with extra := w.tm.extra.put "SameBlockIdx" (.int idx) }
          { Block := block, Depth := depth } blocks index
        rw [hinj] at hc
        simp only at hc
        split at h
        · cases h
        · cases h
          exact hc
      · cases h

theorem visitClassify_congr (env : Env) (k : Nat)
    (gen gen' : String → MdBlock → Bool → Bool → Walk → Walk × Outcome)
    (hgen : ∀ bType mdb a s w, heightList mdb.Block.children < k → mdb.children = [] →
      gen bType mdb a s w = gen' bType mdb a s w)
    (blocks : List Block) (depth : Int) (index : Nat) (block : Block) (l : Locals) (w : Walk)
    (hb : heightList block.children < k) :
    visitClassify env gen blocks depth index block l w
      = visitClassify env gen' blocks depth index block l w := by
  unfold visitClassify
  simp only
  split
  · rfl
  · split
    · rw [generate_congr gen gen' _ _ _ _ _ _ (hgen _ _ _ _ _ hb rfl)]
    · rfl

theorem visit_congr (env : Env) (k : Nat)
    (gen gen' : String → MdBlock → Bool → Bool → Walk → Walk × Outcome)
    (hgen : ∀ bType mdb a s w, heightList mdb.Block.children < k → mdb.children = [] →
      gen bType mdb a s w = gen' bType mdb a s w)
    (blocks : List Block) (depth : Int) (index : Nat) (block : Block) (l : Locals) (w : Walk)
    (hb : heightList block.children < k) :
    visit env gen blocks depth index block l w = visit env gen' blocks depth index block l w := by
  unfold visit
  rw [← visitClassify_congr env k gen gen' hgen blocks depth index block l w hb]
  split
  · rfl
  · rename_i l' w' mdb a act h
    obtain ⟨h1, h2⟩ := visitClassify_action_ctx env gen _ _ _ _ _ _ _ _ _ _ _ h
    split
    · rfl
    · simp only
      rw [generate_congr gen gen' _ _ _ _ _ _ (hgen _ _ _ _ _ (by rw [h1]; exact hb) h2)]

theorem visit_ne_fuel (env : Env) (k : Nat)
    (gen : String → MdBlock → Bool → Bool → Walk → Walk × Outcome)
    (hgen : ∀ bType mdb a s w, heightList mdb.Block.children < k → mdb.children = [] →
      (gen bType mdb a s w).2 ≠ .fuel)
    (blocks : List Block) (depth : Int) (index : Nat) (block : Block) (l : Locals) (w : Walk)
    (hb : heightList block.children < k) :
    (visit env gen blocks depth index block l w).2.2 ≠ .fuel := by
  unfold visit
  split
  · rename_i l' w' r h
    simp only
    unfold visitClassify at h
    by_cases hgate : w.tm.shouldSkipRender block.ty = true
    · simp only [hgate, if_true] at h
      cases h; simp
    · simp only [hgate, Bool.false_eq_true, if_false] at h
      generalize (if some block.ty ≠ l.lastBlockType then (0 : Int) else l.sameBlockIdx + 1)
        = idx at h
      by_cases hs : w.tm.FrontMatter.get "IsSetting" = some (.bool true) ∧ block.ty = .code
      · simp only [hs, and_self, if_true] at h
        cases h
        exact discardError_ne_fuel (generate_ne_fuel gen _ _ _ _ _ _ (hgen _ _ _ _ _ hb rfl))
      · simp only [hs, if_false] at h
        split at h
        · split at h
          · cases h; simp
          · cases h
        · rename_i tm mdb0 r0 hne hinj
          cases h
          have := inject_ne_fuel env
            { w.tm with extra := w.tm.extra.put "SameBlockIdx" (.int idx) }
            { Block := block, Depth := depth } blocks index
          rw [hinj] at this
          exact this
  · rename_i l' w' mdb a act h
    obtain ⟨h1, h2⟩ := visitClassify_action_ctx env gen _ _ _ _ _ _ _ _ _ _ _ h
    split
    · simp
    · simp only
      exact discardError_ne_fuel
        (generate_ne_fuel gen _ _ _ _ _ _ (hgen _ _ _ _ _ (by rw [h1]; exact hb) h2))
theorem heightList_children_lt {b : Block} {bs : List Block} {k : Nat} (hm : b ∈ bs)
    (h : heightList bs ≤ k) : heightList b.children < k := by
  have h1 := heightList_le_of_mem hm
  have h2 := Block.height_eq b
  omega

theorem walkFrom_congr (env : Env) (k : Nat)
    (gen gen' : String → MdBlock → Bool → Bool → Walk → Walk × Outcome)
    (hgen : ∀ bType mdb a s w, heightList mdb.Block.children < k → mdb.children = [] →
      gen bType mdb a s w = gen' bType mdb a s w)
    (blocks : List Block) (depth : Int) (rest : List Block) (hr : heightList rest ≤ k) :
    ∀ (index : Nat) (l : Locals) (w : Walk),
      walkFrom env gen blocks depth index rest l w
        = walkFrom env gen' blocks depth index rest l w := by
  induction rest with
  | nil => intro index l w; rfl
  | cons block rest ih =>
    intro index l w
    have hb : heightList block.children < k :=
      heightList_children_lt (List.mem_cons_self _ _) hr
    have hr' : heightList rest ≤ k := by
      simp only [heightList] at hr
      exact le_trans (le_max_right _ _) hr
    unfold walkFrom
    rw [← visit_congr env k gen gen' hgen blocks depth index block l w hb]
    split
    · exact ih hr' _ _ _
    · rfl

theorem walkFrom_ne_fuel (env : Env) (k : Nat)
    (gen : String → MdBlock → Bool → Bool → Walk → Walk × Outcome)
    (hgen : ∀ bType mdb a s w, heightList mdb.Block.children < k → mdb.children = [] →
      (gen bType mdb a s w).2 ≠ .fuel)
    (blocks : List Block) (depth : Int) (rest : List Block) (hr : heightList rest ≤ k) :
    ∀ (index : Nat) (l : Locals) (w : Walk),
      (walkFrom env gen blocks depth index rest l w).2.2 ≠ .fuel := by
  induction rest with
  | nil => intro index l w; simp [walkFrom]
  | cons block rest ih =>
    intro index l w
    have hb : heightList block.children < k :=
      heightList_children_lt (List.mem_cons_self _ _) hr
    have hr' : heightList rest ≤ k := by
      simp only [heightList] at hr
      exact le_trans (le_max_right _ _) hr
    have hv := visit_ne_fuel env k gen hgen blocks depth index block l w hb
    unfold walkFrom
    split
    · exact ih hr' _ _ _
    · exact hv

/-- Enough budget gives the result: for a block sequence with fewer nesting
levels than the budget `n`, `GenContentBlocks` does not run out of budget, and
every larger budget gives the same walk state and outcome. -/
theorem GenContentBlocks_enough_budget (env : Env) (n : Nat) :
    ∀ (blocks : List Block) (depth : Int) (w : Walk), heightList blocks < n →
      (GenContentBlocks env n blocks depth w).2 ≠ .fuel ∧
      ∀ m, n ≤ m → GenContentBlocks env m blocks depth w = GenContentBlocks env n blocks depth w := by
  induction n with
  | zero => intro blocks depth w h; omega
  | succ k ih =>
    intro blocks depth w h
    have hk : heightList blocks ≤ k := by omega
    constructor
    · unfold GenContentBlocks GenContentBlocksWith
      exact walkFrom_ne_fuel env k _ (fun bType mdb a s w hb hc =>
        GenBlockWith_ne_fuel env k _ (fun bs d w hbs => (ih bs d w hbs).1) bType mdb a s w hb hc)
        blocks depth blocks hk 0 {} w
    · intro m hm
      obtain ⟨m', rfl⟩ : ∃ m', m = m' + 1 := ⟨m - 1, by omega⟩
      unfold GenContentBlocks GenContentBlocksWith
      rw [walkFrom_congr env k _ _ (fun bType mdb a s w hb hc =>
        GenBlockWith_congr env k _ _ (fun bs d w hbs => (ih bs d w hbs).2 m' (by omega))
          bType mdb a s w hb hc) blocks depth blocks hk 0 {} w]

/-! ## Block tree walker: evaluations at failing inputs -/

set_option maxHeartbeats 1600000 in
set_option maxRecDepth 4000 in
/-- C3 (failing input). For `[quote q1 [image], quote q2 [paragraph c]]` where
the download of the image inside `q1` fails, `GenBlock` returns that error for
`q1`, the walk goes on, and `q2` is dispatched with run index 0 although the
sibling visited just before it is a quote as well.  For
`[paragraph p, heading h, paragraph z]` where the render of `h` fails, `z` is
dispatched with run index 1 although the sibling visited just before it is a
heading. -/
theorem GenContentBlocks_runIndex_after_failed_render :
    (GenBlock sampleEnv 2 "quote" { Block := sampleQuote "q1" [sampleImage "unreachable"] }
        false false { tm := New }).2 = .error ⟨"no such host"⟩ ∧
    (GenContentBlocks sampleEnv 3
        [sampleQuote "q1" [sampleImage "unreachable"], sampleQuote "q2" [sampleParagraph "c"]]
        0 { tm := New }).1.log.map (fun e => (e.key, e.runIndex))
      = [(("quote", "q1"), some (.int 0)), (("quote", "q2"), some (.int 0)),
         (("<!--more-->", ""), none), (("paragraph", "c"), some (.int 0)),
         (("<!--more-->", ""), none)] ∧
    (GenBlock sampleEnv 1 "heading_1" { Block := sampleHeading "h" } false false
        { tm := New }).2 = .error ⟨"template: pattern matches no files"⟩ ∧
    (GenContentBlocks sampleEnv 2
        [sampleParagraph "p", sampleHeading "h", sampleParagraph "z"] 0 { tm := New }).1.log.map
        (fun e => (e.key, e.runIndex))
      = [(("paragraph", "p"), some (.int 0)), (("heading_1", "h"), some (.int 0)),
         (("paragraph", "z"), some (.int 1))] := by
  refine ⟨?_, ?_, ?_, ?_⟩ <;> decide

set_option maxRecDepth 4000 in
/-- C4 (failing input). For `[paragraph p, quote q [paragraph c]]`, where the
render of `p` brings the buffer over 60 bytes, the walk started at depth 0
writes the read-more marker twice: once after `q` and once more after its
child `c`, in the recursive call. -/
theorem GenContentBlocks_more_twice :
    (GenContentBlocks sampleEnv 3
        [sampleParagraph "p", sampleQuote "q" [sampleParagraph "c"]] 0 { tm := New }).2 = .ok ∧
    (GenContentBlocks sampleEnv 3
        [sampleParagraph "p", sampleQuote "q" [sampleParagraph "c"]] 0 { tm := New }).1.log.map
        Event.key
      = [("paragraph", "p"), ("quote", "q"), ("<!--more-->", ""), ("paragraph", "c"),
         ("<!--more-->", "")] ∧
    (GenContentBlocks sampleEnv 3
        [sampleParagraph "p", sampleQuote "q" [sampleParagraph "c"]] 0 { tm := New }).1.log.countP
        Event.isMore = 2 := by
  refine ⟨?_, ?_, ?_⟩ <;> decide

set_option maxRecDepth 4000 in
/-- C5 (failing input). In gallery mode, for `[paragraph p, image X, image Y]`
the buffer holds 61 bytes after `p`, so the threshold is first exceeded before
`X`; `X` is classified `skip`; the whole walk ends normally and never writes
the read-more marker. -/
theorem GenContentBlocks_more_lost_on_skip :
    (GenContentBlocks sampleEnv 2 [sampleParagraph "p"] 0
        { tm := galleryTm }).1.tm.ContentBuffer.utf8ByteSize = 61 ∧
    GalleryAction galleryTm [sampleParagraph "p", sampleImage "X", sampleImage "Y"] 1
      = .ok ("skip", "gallery") ∧
    (GenContentBlocks sampleEnv 2 [sampleParagraph "p", sampleImage "X", sampleImage "Y"] 0
        { tm := galleryTm }).2 = .ok ∧
    (GenContentBlocks sampleEnv 2 [sampleParagraph "p", sampleImage "X", sampleImage "Y"] 0
        { tm := galleryTm }).1.log.map Event.key
      = [("paragraph", "p"), ("gallery", "Y")] := by
  refine ⟨?_, ?_, ?_, ?_⟩ <;> decide

set_option maxRecDepth 4000 in
/-- C6 (failing input). For `[heading h, paragraph p]`, `GenBlock` returns an
error for `h`, yet `GenContentBlocks` goes on, renders `p` and returns no
error.  For `[quote q [image], paragraph p]` where the download of the image
inside `q` fails, `GenBlock` returns that error for `q` from the walk of its
children, yet `GenContentBlocks` goes on, renders `p` and returns no error. -/
theorem GenContentBlocks_render_error_dropped :
    (GenBlock sampleEnv 1 "heading_1" { Block := sampleHeading "h" } false false
        { tm := New }).2 = .error ⟨"template: pattern matches no files"⟩ ∧
    (GenContentBlocks sampleEnv 2 [sampleHeading "h", sampleParagraph "p"] 0
        { tm := New }).2 = .ok ∧
    (GenContentBlocks sampleEnv 2 [sampleHeading "h", sampleParagraph "p"] 0
        { tm := New }).1.log.map Event.key
      = [("heading_1", "h"), ("paragraph", "p")] ∧
    (GenBlock sampleEnv 2 "quote" { Block := sampleQuote "q" [sampleImage "unreachable"] }
        false false { tm := New }).2 = .error ⟨"no such host"⟩ ∧
    (GenContentBlocks sampleEnv 3
        [sampleQuote "q" [sampleImage "unreachable"], sampleParagraph "p"] 0
        { tm := New }).2 = .ok ∧
    (GenContentBlocks sampleEnv 3
        [sampleQuote "q" [sampleImage "unreachable"], sampleParagraph "p"] 0
        { tm := New }).1.log.map Event.key
      = [("quote", "q"), ("paragraph", "p"), ("<!--more-->", "")] := by
  refine ⟨?_, ?_, ?_, ?_, ?_, ?_⟩ <;> decide

/-- C7 (failing input). For a file block whose download fails, `downloadMedia`
returns the error but `inject` returns no error, and the walk renders the block
and the sibling after it; for an image block with the same URL `inject` does
return the error. -/
theorem inject_file_download_error_lost :
    (downloadMedia sampleEnv New (sampleFile "unreachable")).2.2 = .error ⟨"no such host"⟩ ∧
    (inject sampleEnv New { Block := sampleFile "unreachable" }
        [sampleFile "unreachable", sampleParagraph "p"] 0).2.2 = .ok ∧
    (GenContentBlocks sampleEnv 2 [sampleFile "unreachable", sampleParagraph "p"] 0
        { tm := New }).2 = .ok ∧
    (GenContentBlocks sampleEnv 2 [sampleFile "unreachable", sampleParagraph "p"] 0
        { tm := New }).1.log.map Event.key
      = [("file", "unreachable"), ("paragraph", "p"), ("<!--more-->", "")] ∧
    (inject sampleEnv New { Block := sampleImage "unreachable" }
        [sampleImage "unreachable", sampleParagraph "p"] 0).2.2 = .error ⟨"no such host"⟩ := by
  refine ⟨?_, ?_, ?_, ?_, ?_⟩ <;> decide

/-! ## Block tree walker: the event log only grows -/

/-- Function `GenBlock` logs its dispatch first, provided the walk of the
children only adds to the log. -/
theorem GenBlockWith_log (env : Env)
    (walk : List Block → Int → Walk → Walk × Outcome)
    (hwalk : ∀ bs d w, ∃ rest, (walk bs d w).1.log = w.log ++ rest)
    (bType : String) (block : MdBlock) (addMoreTag skip : Bool) (w : Walk) :
    ∃ rest, (GenBlockWith env walk bType block addMoreTag skip w).1.log
      = w.log ++ Event.dispatch bType block w.tm.extra :: rest := by
  unfold GenBlockWith
  simp only
  split
  · exact ⟨[], by simp⟩
  · split
    · split
      · split
        · exact ⟨if addMoreTag = true then [Event.more] else [], by
            cases addMoreTag <;> simp⟩
        · exact Exists.elim (hwalk _ _ _) fun rest h =>
            ⟨(if addMoreTag = true then [Event.more] else []) ++ rest, by
              rw [h]; cases addMoreTag <;> simp⟩
      · exact ⟨if addMoreTag = true then [Event.more] else [], by
          cases addMoreTag <;> simp⟩
    · exact ⟨[], by simp⟩

/-- The first part of an iteration adds nothing to the log when it ends with a
classification. -/
theorem visitClassify_action_log (env : Env)
    (gen : String → MdBlock → Bool → Bool → Walk → Walk × Outcome)
    (blocks : List Block) (depth : Int) (index : Nat) (block : Block) (l : Locals) (w : Walk)
    (l' : Locals) (w' : Walk) (mdb : MdBlock) (addMoreTag : Bool) (act : String)
    (h : visitClassify env gen blocks depth index block l w = .action l' w' mdb addMoreTag act) :
    w'.log = w.log := by
  unfold visitClassify at h
  simp only at h
  split at h
  · cases h
  · split at h
    · cases h
    · split at h
      · split at h
        · cases h
        · cases h; rfl
      · cases h

/-- The closure `generate` leaves the walk state that `GenBlock` returns. -/
theorem generate_walk (gen : String → MdBlock → Bool → Bool → Walk → Walk × Outcome)
    (bType : String) (mdb : MdBlock) (addMoreTag : Bool) (block : Block)
    (l : Locals) (w : Walk) :
    (generate gen bType mdb addMoreTag block l w).2.1 = (gen bType mdb addMoreTag false w).1 := by
  unfold generate
  split <;> simp [*]

/-- The first part of an iteration only adds to the log when it ends the
iteration. -/
theorem visitClassify_ended_log (env : Env)
    (gen : String → MdBlock → Bool → Bool → Walk → Walk × Outcome)
    (hgen : ∀ bType mdb a s w, ∃ rest, (gen bType mdb a s w).1.log = w.log ++ rest)
    (blocks : List Block) (depth : Int) (index : Nat) (block : Block) (l : Locals) (w : Walk)
    (l' : Locals) (w' : Walk) (r : Outcome)
    (h : visitClassify env gen blocks depth index block l w = .ended l' w' r) :
    ∃ rest, w'.log = w.log ++ rest := by
  unfold visitClassify at h
  by_cases hgate : w.tm.shouldSkipRender block.ty = true
  · simp only [hgate, if_true] at h
    cases h; exact ⟨[], by simp⟩
  · simp only [hgate, Bool.false_eq_true, if_false] at h
    generalize (if some block.ty ≠ l.lastBlockType then (0 : Int) else l.sameBlockIdx + 1)
      = idx at h
    by_cases hs : w.tm.FrontMatter.get "IsSetting" = some (.bool true) ∧ block.ty = .code
    · simp only [hs, and_self, if_true] at h
      cases h
      rw [generate_walk]
      exact hgen _ _ _ _ _
    · simp only [hs, if_false] at h
      split at h
      · split at h
        · cases h; exact ⟨[], by simp⟩
        · cases h
      · cases h; exact ⟨[], by simp⟩

/-- One iteration of the loop only adds to the log. -/
theorem visit_log (env : Env)
    (gen : String → MdBlock → Bool → Bool → Walk → Walk × Outcome)
    (hgen : ∀ bType mdb a s w, ∃ rest, (gen bType mdb a s w).1.log = w.log ++ rest)
    (blocks : List Block) (depth : Int) (index : Nat) (block : Block) (l : Locals) (w : Walk) :
    ∃ rest, (visit env gen blocks depth index block l w).2.1.log = w.log ++ rest := by
  unfold visit
  split
  · rename_i h
    exact visitClassify_ended_log env gen hgen _ _ _ _ _ _ _ _ _ h
  · rename_i l' w' mdb more act h
    have hw := visitClassify_action_log env gen _ _ _ _ _ _ _ _ _ _ _ h
    split
    · exact ⟨[], by simp [hw]⟩
    · simp only
      rw [generate_walk, ← hw]
      exact hgen _ _ _ _ _

/-- The loop only adds to the log. -/
theorem walkFrom_log (env : Env)
    (gen : String → MdBlock → Bool → Bool → Walk → Walk × Outcome)
    (hgen : ∀ bType mdb a s w, ∃ rest, (gen bType mdb a s w).1.log = w.log ++ rest)
    (blocks : List Block) (depth : Int) (rest : List Block) :
    ∀ (index : Nat) (l : Locals) (w : Walk),
      ∃ more, (walkFrom env gen blocks depth index rest l w).2.1.log = w.log ++ more := by
  induction rest with
  | nil => intro index l w; exact ⟨[], by simp [walkFrom]⟩
  | cons block rest ih =>
    intro index l w
    obtain ⟨m1, h1⟩ := visit_log env gen hgen blocks depth index block l w
    unfold walkFrom
    split
    · rename_i l' w' hv
      obtain ⟨m2, h2⟩ := ih (index + 1) l' w'
      rw [hv] at h1
      simp only at h1
      exact ⟨m1 ++ m2, by rw [h2, h1]; simp⟩
    · exact ⟨m1, h1⟩

/-- Function `GenContentBlocks` only adds to the log, at every nesting budget. -/
theorem GenContentBlocks_log (env : Env) (n : Nat) :
    ∀ (blocks : List Block) (depth : Int) (w : Walk),
      ∃ more, (GenContentBlocks env n blocks depth w).1.log = w.log ++ more := by
  induction n with
  | zero => intro blocks depth w; exact ⟨[], by simp [GenContentBlocks]⟩
  | succ n ih =>
    intro blocks depth w
    unfold GenContentBlocks GenContentBlocksWith
    exact walkFrom_log env _ (fun bType mdb a s w => by
      obtain ⟨rest, h⟩ := GenBlockWith_log env _ ih bType mdb a s w
      exact ⟨_, h⟩) blocks depth blocks 0 {} w

/-- Function `GenBlock` logs its dispatch first, at every nesting budget. -/
theorem GenBlock_log (env : Env) (n : Nat) (bType : String) (block : MdBlock)
    (addMoreTag skip : Bool) (w : Walk) :
    ∃ rest, (GenBlock env n bType block addMoreTag skip w).1.log
      = w.log ++ Event.dispatch bType block w.tm.extra :: rest :=
  GenBlockWith_log env _ (GenContentBlocks_log env n) bType block addMoreTag skip w
/-! ## Side-information resolution leaves the front matter alone -/

theorem download_FrontMatter (env : Env) (tm : ToMarkdown) (url : String) :
    (download env tm url).1.FrontMatter = tm.FrontMatter := by
  unfold download
  simp only
  split
  · rfl
  · split <;> rfl

theorem downloadMedia_FrontMatter (env : Env) (tm : ToMarkdown) (b : Block) :
    (downloadMedia env tm b).1.FrontMatter = tm.FrontMatter := by
  unfold downloadMedia
  split
  · split
    · split
      · rfl
      · rename_i url _
        have := download_FrontMatter env tm url
        split <;> simp_all
    · split
      · rfl
      · rename_i url _
        have := download_FrontMatter env tm url
        split <;> simp_all
    · rfl
  · rfl

theorem inject_FrontMatter (env : Env) (tm : ToMarkdown) (mdb : MdBlock) (blocks : List Block)
    (index : Int) : (inject env tm mdb blocks index).1.FrontMatter = tm.FrontMatter := by
  unfold inject
  simp only
  split
  · split
    · rfl
    · simp only
      rw [downloadMedia_FrontMatter]
      split <;> rfl
  all_goals first
    | rfl
    | skip
  all_goals
    have hd := downloadMedia_FrontMatter env tm mdb.Block
    split <;> simp_all

theorem GalleryAction_congr (tm tm' : ToMarkdown) (blocks : List Block) (i : Int)
    (h : tm'.FrontMatter = tm.FrontMatter) :
    GalleryAction tm' blocks i = GalleryAction tm blocks i := by
  unfold GalleryAction
  rw [h]

/-- The classification that the walker obtains is the value of the policy on
the receiver at the start of the iteration. -/
theorem visitClassify_action_policy (env : Env)
    (gen : String → MdBlock → Bool → Bool → Walk → Walk × Outcome)
    (blocks : List Block) (depth : Int) (index : Nat) (block : Block) (l : Locals) (w : Walk)
    (l' : Locals) (w' : Walk) (mdb : MdBlock) (addMoreTag : Bool) (act : String)
    (h : visitClassify env gen blocks depth index block l w = .action l' w' mdb addMoreTag act) :
    (GalleryAction w.tm blocks index).map Prod.fst = .ok act := by
  unfold visitClassify at h
  by_cases hgate : w.tm.shouldSkipRender block.ty = true
  · simp only [hgate, if_true] at h
    cases h
  · simp only [hgate, Bool.false_eq_true, if_false] at h
    generalize (if some block.ty ≠ l.lastBlockType then (0 : Int) else l.sameBlockIdx + 1)
      = idx at h
    by_cases hs : w.tm.FrontMatter.get "IsSetting" = some (.bool true) ∧ block.ty = .code
    · simp only [hs, and_self, if_true] at h
      cases h
    · simp only [hs, if_false] at h
      split at h
      · rename_i tm mdb0 hinj
        have hfm := inject_FrontMatter env
          { w.tm with extra := w.tm.extra.put "SameBlockIdx" (.int idx) }
          { Block := block, Depth := depth } blocks index
        rw [hinj] at hfm
        simp only at hfm
        split at h
        · cases h
        · rename_i hact
          cases h
          rw [← GalleryAction_congr w.tm tm blocks index hfm, hact]
          rfl
      · cases h
/-! ## Block tree walker: dispatch by gallery classification -/

/-- When the policy is asked about a block of the sequence after `inject`
returned without error for it, the policy returns an action. -/
theorem GalleryAction_after_inject (env : Env) (tm tm' : ToMarkdown) (mdb mdb' : MdBlock)
    (blocks : List Block) (index : Nat)
    (hblock : blocks[index]? = some mdb.Block)
    (hinj : inject env tm mdb blocks index = (tm', mdb', .ok)) :
    ∃ act folder, GalleryAction tm blocks index = .ok (act, folder) := by
  by_cases himg : mdb.Block.ty = .image
  · unfold inject at hinj
    simp only [himg] at hinj
    cases hg : GalleryAction tm blocks index with
    | error p => rw [hg] at hinj; simp at hinj
    | ok r => exact ⟨r.1, r.2, rfl⟩
  · by_cases hmode : tm.FrontMatter.get "Type" = some (.str "gallery")
    · have hty : typeAt blocks index = .ok mdb.Block.ty := by
        simp [typeAt, hblock]
      refine ⟨"noting", "", ?_⟩
      simp [GalleryAction, hmode, notImageAt, hty, Except.map, Except.bind, himg]
    · exact ⟨"nothing", "", by simp [GalleryAction, hmode]⟩

theorem visitClassify_of_inject_ok (env : Env)
    (gen : String → MdBlock → Bool → Bool → Walk → Walk × Outcome)
    (blocks : List Block) (depth : Int) (index : Nat) (block : Block) (l : Locals) (w : Walk)
    (tm' : ToMarkdown) (mdb : MdBlock) (act folder : String)
    (hgate : w.tm.shouldSkipRender block.ty = false) (hs : ¬ settingCode w.tm block)
    (hinj : inject env (atInject block l w.tm) { Block := block, Depth := depth } blocks index
      = (tm', mdb, .ok))
    (hact : GalleryAction w.tm blocks index = .ok (act, folder)) :
    ∃ l' addMoreTag, visitClassify env gen blocks depth index block l w
      = .action l' { w with tm := tm' } mdb addMoreTag act := by
  have hfm := inject_FrontMatter env (atInject block l w.tm)
    { Block := block, Depth := depth } blocks index
  rw [hinj] at hfm
  have hact' : GalleryAction tm' blocks index = .ok (act, folder) := by
    rw [GalleryAction_congr w.tm tm' blocks index hfm]
    exact hact
  unfold settingCode at hs
  unfold atInject at hinj
  unfold visitClassify
  simp only [hgate, Bool.false_eq_true, if_false, hs, hinj, hact']
  exact ⟨_, _, rfl⟩

theorem visitClassify_of_inject_failed (env : Env)
    (gen : String → MdBlock → Bool → Bool → Walk → Walk × Outcome)
    (blocks : List Block) (depth : Int) (index : Nat) (block : Block) (l : Locals) (w : Walk)
    (tm' : ToMarkdown) (mdb : MdBlock) (r : Outcome)
    (hgate : w.tm.shouldSkipRender block.ty = false) (hs : ¬ settingCode w.tm block)
    (hinj : inject env (atInject block l w.tm) { Block := block, Depth := depth } blocks index
      = (tm', mdb, r))
    (hr : r ≠ .ok) :
    ∃ l', visitClassify env gen blocks depth index block l w
      = .ended l' { w with tm := tm' } r := by
  unfold settingCode at hs
  unfold atInject at hinj
  unfold visitClassify
  simp only [hgate, Bool.false_eq_true, if_false, hs, hinj]
  cases r with
  | ok => exact absurd rfl hr
  | error e => exact ⟨_, rfl⟩
  | panic p => exact ⟨_, rfl⟩
  | fuel => exact ⟨_, rfl⟩

/-- C9 (counterexample). In gallery mode with the extended syntax off, the
bookmark of `[bookmark b, paragraph p]` is classified `noting`, which is
neither `skip` nor `write`, and the walk does not dispatch it; the second
image of `[image X, image unreachable]` is classified `write`, its download
fails, and the walk returns that error without any dispatch. -/
theorem GenContentBlocks_classified_not_dispatched :
    (GalleryAction galleryTm [sampleBookmark "b", sampleParagraph "p"] 0).map Prod.fst
      = .ok "noting" ∧
    (GenContentBlocks sampleEnv 2 [sampleBookmark "b", sampleParagraph "p"] 0
        { tm := galleryTm }).1.log.map Event.key
      = [(sampleEnv.GetBlockType (sampleParagraph "p"), "p")] ∧
    (GalleryAction galleryTm [sampleImage "X", sampleImage "unreachable"] 1).map Prod.fst
      = .ok "write" ∧
    (GenContentBlocks sampleEnv 2 [sampleImage "X", sampleImage "unreachable"] 0
        { tm := galleryTm }).1.log.map Event.key = [] ∧
    (GenContentBlocks sampleEnv 2 [sampleImage "X", sampleImage "unreachable"] 0
        { tm := galleryTm }).2 = .error ⟨"no such host"⟩ := by
  refine ⟨?_, ?_, ?_, ?_, ?_⟩ <;> decide

/-- C9 (amended). In every iteration of the walker, for the block at `index`
of the sibling sequence: a block that the extended-syntax gate holds back is
not dispatched and the loop goes on; in the settings branch the block is
dispatched with its own type tag; otherwise, when `inject` does not return
normally, the iteration ends the walk with that outcome and dispatches
nothing; and when `inject` returns normally, the policy returns an action for
the block, and the iteration dispatches nothing if the action is `skip`,
dispatches the block with render type `gallery` if it is `write`, and
dispatches it with its own type tag for any other action.  For the document
`[paragraph Hello, image X, image Y]` in gallery mode the policy returns
`noting`, `skip`, `write`, and the walk dispatches the paragraph under its own
type tag, does not dispatch `X`, and dispatches `Y` with render type
`gallery`. -/
theorem visit_dispatch_by_gate_inject_action (env : Env) (n : Nat) (blocks : List Block)
    (depth : Int) (index : Nat) (block : Block) (l : Locals) (w : Walk)
    (hblock : blocks[index]? = some block) :
    (w.tm.shouldSkipRender block.ty = true →
      visit env (GenBlock env n) blocks depth index block l w = (l, w, .ok)) ∧
    (w.tm.shouldSkipRender block.ty = false → settingCode w.tm block → ∃ rest,
      (visit env (GenBlock env n) blocks depth index block l w).2.1.log
        = w.log ++ Event.dispatch (env.GetBlockType block) { Block := block, Depth := depth }
            (atInject block l w.tm).extra :: rest) ∧
    (w.tm.shouldSkipRender block.ty = false → ¬ settingCode w.tm block →
      ∀ tm' mdb r,
        inject env (atInject block l w.tm) { Block := block, Depth := depth } blocks index
          = (tm', mdb, r) → r ≠ .ok →
        (visit env (GenBlock env n) blocks depth index block l w).2.1.log = w.log ∧
        (visit env (GenBlock env n) blocks depth index block l w).2.2 = r) ∧
    (w.tm.shouldSkipRender block.ty = false → ¬ settingCode w.tm block →
      ∀ tm' mdb,
        inject env (atInject block l w.tm) { Block := block, Depth := depth } blocks index
          = (tm', mdb, .ok) →
        ∃ act folder, GalleryAction w.tm blocks index = .ok (act, folder) ∧
          (act = "skip" →
            (visit env (GenBlock env n) blocks depth index block l w).2.1.log = w.log) ∧
          (act = "write" → ∃ rest,
            (visit env (GenBlock env n) blocks depth index block l w).2.1.log
              = w.log ++ Event.dispatch "gallery" mdb tm'.extra :: rest) ∧
          (act ≠ "skip" → act ≠ "write" → ∃ rest,
            (visit env (GenBlock env n) blocks depth index block l w).2.1.log
              = w.log ++ Event.dispatch (env.GetBlockType block) mdb tm'.extra :: rest)) ∧
    ((GalleryAction galleryTm
        [sampleParagraph "Hello", sampleImage "X", sampleImage "Y"] 0).map Prod.fst
        = .ok "noting" ∧
      (GalleryAction galleryTm
        [sampleParagraph "Hello", sampleImage "X", sampleImage "Y"] 1).map Prod.fst
        = .ok "skip" ∧
      (GalleryAction galleryTm
        [sampleParagraph "Hello", sampleImage "X", sampleImage "Y"] 2).map Prod.fst
        = .ok "write" ∧
      (GenContentBlocks sampleEnv 2
        [sampleParagraph "Hello", sampleImage "X", sampleImage "Y"] 0
        { tm := galleryTm }).1.log.map Event.key
        = [(sampleEnv.GetBlockType (sampleParagraph "Hello"), "Hello"), ("gallery", "Y")]) := by
  refine ⟨?_, ?_, ?_, ?_, ?_⟩
  · intro hgate
    unfold visit visitClassify
    simp only [hgate, if_true]
  · intro hgate hs
    obtain ⟨hset, hcode⟩ := hs
    rw [hcode] at hgate
    unfold visit visitClassify atInject
    simp only [hgate, Bool.false_eq_true, if_false, hset, hcode, and_self, if_true]
    rw [generate_walk]
    exact GenBlock_log env n _ _ _ _ _
  · intro hgate hs tm' mdb r hinj hr
    obtain ⟨l', h⟩ := visitClassify_of_inject_failed env (GenBlock env n) blocks depth index
      block l w tm' mdb r hgate hs hinj hr
    unfold visit
    rw [h]
    exact ⟨rfl, rfl⟩
  · intro hgate hs tm' mdb hinj
    have hinj' := hinj
    have hfm : (atInject block l w.tm).FrontMatter = w.tm.FrontMatter := rfl
    obtain ⟨act, folder, hact0⟩ := GalleryAction_after_inject env (atInject block l w.tm) tm'
      { Block := block, Depth := depth } mdb blocks index hblock hinj
    have hact : GalleryAction w.tm blocks index = .ok (act, folder) := by
      rw [← GalleryAction_congr w.tm (atInject block l w.tm) blocks index hfm]
      exact hact0
    obtain ⟨l', addMoreTag, h⟩ := visitClassify_of_inject_ok env (GenBlock env n) blocks depth
      index block l w tm' mdb act folder hgate hs hinj hact
    refine ⟨act, folder, hact, ?_, ?_, ?_⟩
    · intro ha
      unfold visit
      rw [h]
      simp [ha]
    · intro ha
      unfold visit
      rw [h]
      simp only [ha, if_true]
      rw [if_neg (by decide), generate_walk]
      exact GenBlock_log env n _ _ _ _ _
    · intro h1 h2
      unfold visit
      rw [h]
      simp only [h1, h2, if_false]
      rw [generate_walk]
      exact GenBlock_log env n _ _ _ _ _
  · refine ⟨?_, ?_, ?_, ?_⟩ <;> decide

/-- Witness for C9 (amended): the last image of `[paragraph, image X, image Y]`
in gallery mode is not gated, its `inject` returns normally, the policy
returns `write` for it, and the iteration dispatches it as `gallery`. -/
theorem visit_dispatch_by_gate_inject_action_witness :
    GalleryAction galleryTm
        [sampleParagraph "Hello", sampleImage "X", sampleImage "Y"] 2 = .ok ("write", "gallery") ∧
    ∃ rest,
      (visit sampleEnv (GenBlock sampleEnv 1)
        [sampleParagraph "Hello", sampleImage "X", sampleImage "Y"] 0 2 (sampleImage "Y")
        {} { tm := galleryTm }).2.1.log
        = [] ++ Event.dispatch "gallery"
            (inject sampleEnv (atInject (sampleImage "Y") {} galleryTm)
              { Block := sampleImage "Y", Depth := 0 }
              [sampleParagraph "Hello", sampleImage "X", sampleImage "Y"] 2).2.1
            (inject sampleEnv (atInject (sampleImage "Y") {} galleryTm)
              { Block := sampleImage "Y", Depth := 0 }
              [sampleParagraph "Hello", sampleImage "X", sampleImage "Y"] 2).1.extra :: rest := by
  have hpolicy : GalleryAction galleryTm
      [sampleParagraph "Hello", sampleImage "X", sampleImage "Y"] 2 = .ok ("write", "gallery") := by
    decide
  refine ⟨hpolicy, ?_⟩
  obtain ⟨act, folder, hact, _, hwrite, _⟩ :=
    (visit_dispatch_by_gate_inject_action sampleEnv 1
      [sampleParagraph "Hello", sampleImage "X", sampleImage "Y"] 0 2 (sampleImage "Y")
      {} { tm := galleryTm } rfl).2.2.2.1 (by decide)
      (fun h => absurd h.2 (by decide)) _ _ rfl
  have hw : act = "write" := by
    have h := hact.symm.trans hpolicy
    simp only [Except.ok.injEq, Prod.mk.injEq] at h
    exact h.1
  exact hwrite hw

/-! ## Annotation formatter: claims -/

/-- C13. For every annotation set with the inline-code flag set, `emphFormat`
returns exactly the code-span pattern, whatever the other flags and the color
token are. -/
theorem emphFormat_code (a : Annotations) (h : a.Code = true) :
    emphFormat (some a) = "`%s`" := by
  simp [emphFormat, h]

/-- Witness for C13: code with bold and a color. -/
theorem emphFormat_code_witness :
    emphFormat (some { Code := true, Bold := true, Color := "red" }) = "`%s`" :=
  emphFormat_code { Code := true, Bold := true, Color := "red" } rfl

/-- C14. For every annotation set with bold, italic and underline set and
inline-code unset, whatever the strikethrough flag: for the color `default`
`emphFormat` is exactly the triple-emphasis pattern wrapped in underline
markup; for any other color token it is that same pattern enclosed in one span,
a background-color span when the token contains `_background` and a color span
otherwise, whose color value is read from the palette. -/
theorem emphFormat_bold_italic_underline (a : Annotations)
    (hb : a.Bold = true) (hi : a.Italic = true) (hu : a.Underline = true)
    (hc : a.Code = false) :
    (a.Color = "default" → emphFormat (some a) = tripleUnderlined) ∧
    (a.Color ≠ "default" → strContains a.Color "_background" = true →
      emphFormat (some a) =
        "<span style=\"background-color: "
          ++ strAt backgroundColors ((Split a.Color '_').headD "") ++ ";\">"
          ++ tripleUnderlined ++ "</span>") ∧
    (a.Color ≠ "default" → strContains a.Color "_background" = false →
      emphFormat (some a) =
        "<span style=\"color: " ++ strAt colors a.Color ++ ";\">"
          ++ tripleUnderlined ++ "</span>") := by
  refine ⟨?_, ?_, ?_⟩
  · intro h
    simp [emphFormat, textColor, hb, hi, hu, hc, h, tripleUnderlined]
  · intro h h2
    simp [emphFormat, textColor, hb, hi, hu, hc, h, h2, tripleUnderlined]
  · intro h h2
    simp [emphFormat, textColor, hb, hi, hu, hc, h, h2, tripleUnderlined]

/-- Witness for C14: strikethrough set as well, color `red`. -/
theorem emphFormat_bold_italic_underline_witness :
    emphFormat (some ⟨true, true, true, true, false, "red"⟩) =
      "<span style=\"color: " ++ strAt colors "red" ++ ";\">" ++ tripleUnderlined ++ "</span>" :=
  (emphFormat_bold_italic_underline ⟨true, true, true, true, false, "red"⟩
    rfl rfl rfl rfl).2.2 (by decide) (by decide)

/-- C15 (failing input). The palette tables hold the key `purble`, not
`purple`: for the tokens `purple` and `purple_background` the looked-up color
value is empty and `textColor` emits a span with an empty color declaration.
The other eight names resolve to non-empty values in both tables. -/
theorem textColor_purple_empty :
    strAt colors "purple" = "" ∧ strAt backgroundColors "purple" = "" ∧
    textColor { Color := "purple" } "%s" = "<span style=\"color: ;\">%s</span>" ∧
    textColor { Color := "purple_background" } "%s"
      = "<span style=\"background-color: ;\">%s</span>" ∧
    (∀ name ∈ ["gray", "brown", "orange", "yellow", "green", "blue", "pink", "red"],
      strAt colors name ≠ "" ∧ strAt backgroundColors name ≠ "") := by
  refine ⟨?_, ?_, ?_, ?_, ?_⟩ <;> decide

/-- C16 (counterexample). For the empty color token `emphFormat` does not
return the pattern it returns for `default`: it wraps it in a span. -/
theorem emphFormat_empty_color_differs :
    emphFormat (some { Color := "" }) = "<span style=\"color: ;\">%s</span>" ∧
    emphFormat (some { Color := "default" }) = "%s" ∧
    emphFormat (some { Color := "" }) ≠ emphFormat (some { Color := "default" }) ∧
    strContains (emphFormat (some { Color := "" })) "<span" = true := by
  refine ⟨?_, ?_, ?_, ?_⟩ <;> decide

/-- C16 (amended). For every annotation set whose color token is the literal
`default`, the pattern of `emphFormat` contains no span markup; absent
annotations give the plain pattern; and for the empty color token, with
inline-code unset, `emphFormat` returns the pattern for `default` enclosed in a
span with an empty color declaration. -/
theorem emphFormat_default_no_span (a : Annotations) (h : a.Color = "default") :
    strContains (emphFormat (some a)) "<span" = false ∧
    emphFormat none = "%s" ∧
    (a.Code = false →
      emphFormat (some { a with Color := "" }) =
        "<span style=\"color: ;\">" ++ emphFormat (some a) ++ "</span>") := by
  obtain ⟨b, i, s, u, c, col⟩ := a
  simp only at h
  subst h
  refine ⟨?_, rfl, ?_⟩
  · cases b <;> cases i <;> cases s <;> cases u <;> cases c <;> decide
  · intro hc
    simp only at hc
    subst hc
    cases b <;> cases i <;> cases s <;> cases u <;> decide

/-- Witness for C16 (amended): bold text in the default color. -/
theorem emphFormat_default_no_span_witness :
    strContains (emphFormat (some { Bold := true, Color := "default" })) "<span" = false :=
  (emphFormat_default_no_span { Bold := true, Color := "default" } rfl).1

/-! ## Rich text composer: claims -/

theorem trimSpaceChars_of_all_space (cs : List Char) (h : ∀ c ∈ cs, isSpace c = true) :
    trimSpaceChars cs = [] := by
  have : cs.dropWhile isSpace = [] := by
    rw [List.dropWhile_eq_nil_iff]
    exact h
  simp [trimSpaceChars, this]

/-- The result of `strings.TrimSpace` is the content without a white-space
prefix and a white-space suffix: everything between them is kept. -/
theorem trimSpaceChars_decompose (cs : List Char) :
    ∃ lead trail, (∀ c ∈ lead, isSpace c = true) ∧ (∀ c ∈ trail, isSpace c = true) ∧
      cs = lead ++ trimSpaceChars cs ++ trail := by
  refine ⟨cs.takeWhile isSpace,
    (((cs.dropWhile isSpace).reverse).takeWhile isSpace).reverse, ?_, ?_, ?_⟩
  · intro c hc
    exact List.mem_takeWhile_imp hc
  · intro c hc
    exact List.mem_takeWhile_imp (List.mem_reverse.mp hc)
  · unfold trimSpaceChars
    have h1 := List.takeWhile_append_dropWhile isSpace cs
    have h2 := List.takeWhile_append_dropWhile isSpace (cs.dropWhile isSpace).reverse
    have h3 : cs.dropWhile isSpace
        = (((cs.dropWhile isSpace).reverse).dropWhile isSpace).reverse
          ++ (((cs.dropWhile isSpace).reverse).takeWhile isSpace).reverse := by
      rw [← List.reverse_append, h2, List.reverse_reverse]
    rw [List.append_assoc, ← h3, h1]

/-- C17 (counterexample). For the text run with content ` a  b ` (no link, no
annotations) `ConvertRich` returns `a  b`: the leading and the trailing space
are removed, so the pattern is not applied to the content unchanged. -/
theorem ConvertRich_trims_content :
    ConvertRich { Text := some { Content := " a  b " } } = .ok "a  b" ∧
    ConvertRich { Text := some { Content := " a  b " } }
      ≠ .ok (Sprintf (emphFormat none) [" a  b "]) := by
  constructor <;> decide

theorem trimSpaceChars_head (cs : List Char) (c : Char)
    (h : (trimSpaceChars cs).head? = some c) : isSpace c = false := by
  have h2 := List.takeWhile_append_dropWhile isSpace (cs.dropWhile isSpace).reverse
  have h3 : cs.dropWhile isSpace
      = trimSpaceChars cs ++ (((cs.dropWhile isSpace).reverse).takeWhile isSpace).reverse := by
    unfold trimSpaceChars
    rw [← List.reverse_append, h2, List.reverse_reverse]
  have hd := List.head?_dropWhile_not isSpace cs
  rw [h3] at hd
  cases ht : trimSpaceChars cs with
  | nil => rw [ht] at h; cases h
  | cons x xs =>
    rw [ht] at h hd
    simp only [List.head?_cons, Option.some.injEq] at h
    subst h
    simpa using hd

theorem trimSpaceChars_getLast (cs : List Char) (c : Char)
    (h : (trimSpaceChars cs).getLast? = some c) : isSpace c = false := by
  unfold trimSpaceChars at h
  rw [List.getLast?_reverse] at h
  have hd := List.head?_dropWhile_not isSpace (cs.dropWhile isSpace).reverse
  rw [h] at hd
  exact hd

theorem trimSpaceChars_ne_nil (cs : List Char) (h : ∃ c ∈ cs, isSpace c = false) :
    trimSpaceChars cs ≠ [] := by
  intro hnil
  unfold trimSpaceChars at hnil
  rw [List.reverse_eq_nil_iff, List.dropWhile_eq_nil_iff] at hnil
  have hall : ∀ x ∈ cs.dropWhile isSpace, isSpace x = true :=
    fun x hx => hnil x (List.mem_reverse.mpr hx)
  have hd := List.head?_dropWhile_not isSpace cs
  cases hdrop : cs.dropWhile isSpace with
  | nil =>
    rw [List.dropWhile_eq_nil_iff] at hdrop
    obtain ⟨c, hc, hs⟩ := h
    rw [hdrop c hc] at hs
    cases hs
  | cons x xs =>
    rw [hdrop] at hd hall
    simp only [List.head?_cons] at hd
    rw [hall x (List.mem_cons_self _ _)] at hd
    cases hd

/-- C17 (amended). For every text run without a hyperlink whose content holds a
character that is not white space, the content is a white-space prefix, a
middle part and a white-space suffix, where the middle part is not empty and
neither begins nor ends with white space, and `ConvertRich` applies the
annotation pattern to the middle part alone: the leading and the trailing white
space of the content is removed, the white space inside it is kept. -/
theorem ConvertRich_text_trimmed (t : RichText) (text : Text)
    (hty : t.Typ = .text) (htext : t.Text = some text) (hlink : text.Link = none)
    (hne : ∃ c ∈ text.Content.data, isSpace c = false) :
    ∃ lead mid trail, text.Content.data = lead ++ mid ++ trail ∧
      (∀ c ∈ lead, isSpace c = true) ∧ (∀ c ∈ trail, isSpace c = true) ∧
      mid ≠ [] ∧
      (∀ c, mid.head? = some c → isSpace c = false) ∧
      (∀ c, mid.getLast? = some c → isSpace c = false) ∧
      ConvertRich t = .ok (Sprintf (emphFormat t.Annotations) [String.mk mid]) := by
  obtain ⟨lead, trail, hlead, htrail, hdec⟩ := trimSpaceChars_decompose text.Content.data
  have hmid := trimSpaceChars_ne_nil text.Content.data hne
  refine ⟨lead, trimSpaceChars text.Content.data, trail, hdec, hlead, htrail, hmid,
    trimSpaceChars_head _, trimSpaceChars_getLast _, ?_⟩
  have hns : TrimSpace text.Content ≠ "" := by
    intro h
    exact hmid (congrArg String.data h)
  simp [ConvertRich, hty, htext, hlink, hns]
  rfl

/-- Witness for C17 (amended): the bold run ` a  b ` is rendered from `a  b`. -/
theorem ConvertRich_text_trimmed_witness :
    (∃ lead mid trail, " a  b ".data = lead ++ mid ++ trail ∧
      (∀ c ∈ lead, isSpace c = true) ∧ (∀ c ∈ trail, isSpace c = true) ∧
      mid ≠ [] ∧
      (∀ c, mid.head? = some c → isSpace c = false) ∧
      (∀ c, mid.getLast? = some c → isSpace c = false) ∧
      ConvertRich { Text := some { Content := " a  b " }, Annotations := some { Bold := true } }
        = .ok (Sprintf (emphFormat (some { Bold := true })) [String.mk mid])) ∧
    ConvertRich { Text := some { Content := " a  b " }, Annotations := some { Bold := true } }
      = .ok " **a  b**" :=
  ⟨ConvertRich_text_trimmed
    { Text := some { Content := " a  b " }, Annotations := some { Bold := true } }
    { Content := " a  b " } rfl rfl rfl ⟨'a', by decide, by decide⟩, by decide⟩

theorem ConvertRich_whitespaceRun (t : RichText) (h : whitespaceRun t) :
    ConvertRich t = .ok "" := by
  obtain ⟨hty, text, htext, hlink, hall⟩ := h
  have : TrimSpace text.Content = "" := by
    unfold TrimSpace
    rw [trimSpaceChars_of_all_space _ hall]
  simp [ConvertRich, hty, htext, hlink, this]

theorem convertRichTextFrom_append (xs ys : List RichText) :
    ∀ buf, convertRichTextFrom (xs ++ ys) buf
      = (convertRichTextFrom xs buf).bind (fun b => convertRichTextFrom ys b) := by
  induction xs with
  | nil => intro buf; rfl
  | cons x xs ih =>
    intro buf
    simp only [List.cons_append, convertRichTextFrom]
    cases ConvertRich x with
    | error p => rfl
    | ok s => exact ih _

/-- C18. `ConvertRichText` of the empty run list is the empty string, and a
whitespace-only text run without a hyperlink contributes nothing: a run list
with such a run inserted at any position gives the same result as the list
without it, whatever the annotations of the run. -/
theorem ConvertRichText_whitespace_run (xs ys : List RichText) (ws : RichText)
    (h : whitespaceRun ws) :
    ConvertRichText [] = .ok "" ∧
    ConvertRichText (xs ++ ws :: ys) = ConvertRichText (xs ++ ys) := by
  refine ⟨rfl, ?_⟩
  unfold ConvertRichText
  rw [convertRichTextFrom_append, convertRichTextFrom_append]
  cases convertRichTextFrom xs "" with
  | error p => rfl
  | ok b =>
    simp only [Except.bind, convertRichTextFrom, ConvertRich_whitespaceRun ws h]
    have : b ++ "" = b := String.append_empty b
    rw [this]

/-- Witness for C18: a run of two spaces and a tab, in bold, between two
words. -/
theorem ConvertRichText_whitespace_run_witness :
    ConvertRichText
        ([{ Text := some { Content := "a" } }]
          ++ { Text := some { Content := "  \t" }, Annotations := some { Bold := true } }
            :: [{ Text := some { Content := "b" } }])
      = ConvertRichText ([{ Text := some { Content := "a" } }]
          ++ [{ Text := some { Content := "b" } }]) :=
  (ConvertRichText_whitespace_run [{ Text := some { Content := "a" } }]
    [{ Text := some { Content := "b" } }]
    { Text := some { Content := "  \t" }, Annotations := some { Bold := true } }
    ⟨rfl, { Content := "  \t" }, rfl, rfl, by decide⟩).2

/-! ## Front matter extractor: claims -/

theorem StrMap.get_put {V : Type} (m : StrMap V) (key : String) (v : V) :
    (m.put key v).get key = some v := by
  simp [StrMap.get, StrMap.put, List.lookup]

theorem selectNames_eq (prop : List SelectOptions) :
    ∀ opts, selectNames prop opts = opts ++ prop.map (fun o => o.Name) := by
  induction prop with
  | nil => intro opts; simp [selectNames]
  | cons o rest ih => intro opts; simp [selectNames, ih]

theorem filesLoop_last (len : Nat) (last : File) (xs : List File) :
    ∀ (i : Nat) (fmv : Option FMValue), i + (xs.length + 1) = len →
      filesLoop len i (xs ++ [last]) fmv =
        match last.File with
        | none => .error .nilDereference
        | some url => .ok (some (.str ("image|" ++ url))) := by
  induction xs with
  | nil =>
    intro i fmv h
    have hi : (i : Int) = (len : Int) - 1 := by simp at h; omega
    simp only [List.nil_append, filesLoop, hi, if_true]
  | cons x rest ih =>
    intro i fmv h
    have hi : ¬ (i : Int) = (len : Int) - 1 := by simp at h; omega
    simp only [List.cons_append, filesLoop, hi, if_false]
    exact ih (i + 1) fmv (by simp at h ⊢; omega)

/-- What `injectFrontMatter` does with a files property whose last element is
hosted by Notion (its `File` pointer is set): the deferred image tag of the
last URL is stored under the key, whatever the earlier elements are; an empty
list leaves the record unchanged. -/
theorem injectFrontMatter_files_hosted_last (tm : ToMarkdown) (key typ : String)
    (title : List RichText) (checkbox : Option Bool) (fs : List File) (last : File)
    (url : String) (hu : last.File = some url) :
    injectFrontMatter tm key ⟨typ, title, checkbox, .files (fs ++ [last])⟩
      = .ok { tm with FrontMatter := tm.FrontMatter.put key (.str ("image|" ++ url)) } ∧
    injectFrontMatter tm key ⟨typ, title, checkbox, .files []⟩ = .ok tm := by
  constructor
  · have h := filesLoop_last (fs ++ [last]).length last fs 0 none (by simp)
    rw [hu] at h
    simp only [injectFrontMatter, frontMatterValue, h]
  · rfl

/-- C19 (failing input). For a files property whose last element is an
external file (its `File` pointer is nil), the read of `image.File.URL` panics
and nothing is stored; for the same list with the hosted file last, the tag of
that file is stored. -/
theorem injectFrontMatter_files_external_last :
    injectFrontMatter New "Banner"
        { Typ := "files", Value := .files
            [{ Name := "a.png", Typ := .file, File := some "https://notion.host/a.png" },
             { Name := "b.png", Typ := .external, External := some "https://example.org/b.png" }] }
      = .error .nilDereference ∧
    (injectFrontMatter New "Banner"
        { Typ := "files", Value := .files
            [{ Name := "b.png", Typ := .external, External := some "https://example.org/b.png" },
             { Name := "a.png", Typ := .file, File := some "https://notion.host/a.png" }] }).map
        (fun tm => tm.FrontMatter.get "Banner")
      = .ok (some (.str "image|https://notion.host/a.png")) := by
  constructor <;> decide

/-- C20. For every multi-select property, `injectFrontMatter` stores under the
property's key the list of the option names, of the same length and in the same
order as the options. -/
theorem injectFrontMatter_multiSelect (tm : ToMarkdown) (key : String)
    (property : DatabasePageProperty) (options : List SelectOptions)
    (h : property.Value = .multiSelect options) :
    injectFrontMatter tm key property
      = .ok { tm with FrontMatter :=
          tm.FrontMatter.put key (.strs (options.map (fun o => o.Name))) } ∧
    (tm.FrontMatter.put key (.strs (options.map (fun o => o.Name)))).get key
      = some (.strs (options.map (fun o => o.Name))) ∧
    (options.map (fun o => o.Name)).length = options.length := by
  refine ⟨?_, StrMap.get_put _ _ _, by simp⟩
  simp [injectFrontMatter, frontMatterValue, h, selectNames_eq]

/-- Witness for C20: the options `a`, `b` give the value `["a", "b"]`. -/
theorem injectFrontMatter_multiSelect_witness :
    injectFrontMatter New "Tags"
        { Typ := "multi_select", Value := .multiSelect [{ Name := "a" }, { Name := "b" }] }
      = .ok { New with FrontMatter := StrMap.put New.FrontMatter "Tags" (.strs ["a", "b"]) } :=
  (injectFrontMatter_multiSelect New "Tags"
    { Typ := "multi_select", Value := .multiSelect [{ Name := "a" }, { Name := "b" }] }
    [{ Name := "a" }, { Name := "b" }] rfl).1

/-! ## Block tree walker: depth of the render contexts -/

theorem sameNode_refl (b : Block) : sameNode b b := ⟨rfl, rfl, rfl⟩

theorem downloadMedia_sameNode (env : Env) (tm : ToMarkdown) (b : Block) :
    sameNode (downloadMedia env tm b).2.1 b := by
  unfold downloadMedia
  split
  · split
    · split
      · exact sameNode_refl b
      · split <;> cases b <;> exact ⟨rfl, rfl, rfl⟩
    · split
      · exact sameNode_refl b
      · split <;> cases b <;> exact ⟨rfl, rfl, rfl⟩
    · exact sameNode_refl b
  · exact sameNode_refl b

/-- Function `inject` keeps the identity of the block and the depth of the
render context. -/
theorem inject_sameNode (env : Env) (tm : ToMarkdown) (mdb : MdBlock) (blocks : List Block)
    (index : Int) :
    sameNode (inject env tm mdb blocks index).2.1.Block mdb.Block ∧
    (inject env tm mdb blocks index).2.1.Depth = mdb.Depth := by
  have hd := downloadMedia_sameNode env
  unfold inject
  simp only
  split
  · split
    · exact ⟨sameNode_refl _, rfl⟩
    · simp only
      exact ⟨hd _ _, trivial⟩
  all_goals first
    | exact ⟨sameNode_refl _, rfl⟩
    | skip
  all_goals
    have hd' := hd tm mdb.Block
    split <;> simp_all


/-- The render context at the classification is that of the block, at the
depth of the walk. -/
theorem visitClassify_action_node (env : Env)
    (gen : String → MdBlock → Bool → Bool → Walk → Walk × Outcome)
    (blocks : List Block) (depth : Int) (index : Nat) (block : Block) (l : Locals) (w : Walk)
    (l' : Locals) (w' : Walk) (mdb : MdBlock) (addMoreTag : Bool) (act : String)
    (h : visitClassify env gen blocks depth index block l w = .action l' w' mdb addMoreTag act) :
    sameNode mdb.Block block ∧ mdb.Depth = depth := by
  unfold visitClassify at h
  by_cases hgate : w.tm.shouldSkipRender block.ty = true
  · simp only [hgate, if_true] at h
    cases h
  · simp only [hgate, Bool.false_eq_true, if_false] at h
    generalize (if some block.ty ≠ l.lastBlockType then (0 : Int) else l.sameBlockIdx + 1)
      = idx at h
    by_cases hs : w.tm.FrontMatter.get "IsSetting" = some (.bool true) ∧ block.ty = .code
    · simp only [hs, and_self, if_true] at h
      cases h
    · simp only [hs, if_false] at h
      split at h
      · rename_i tm mdb0 hinj
        have hc := inject_sameNode env
          { w.tm with extra := w.tm.extra.put "SameBlockIdx" (.int idx) }
          { Block := block, Depth := depth } blocks index
        rw [hinj] at hc
        simp only at hc
        split at h
        · cases h
        · cases h
          exact hc
      · cases h

theorem getChildrenBlocks_depth (b b' : MdBlock) (h : getChildrenBlocks b = .ok b') :
    b'.Depth = b.Depth := by
  unfold getChildrenBlocks assertType at h
  simp only [Except.map] at h
  split at h
  all_goals first
    | (cases h; rfl)
    | skip
  all_goals
    split at h
    · cases h
    · cases h; rfl

theorem Event.atDepth_nil {d d' : Int} {bs : List Block} {e : Event}
    (h : e.atDepth d [] ) : e.atDepth d' bs := by
  cases e with
  | more => trivial
  | dispatch bType mdb extra =>
    obtain ⟨k, b, hk, _, _⟩ := h
    cases hk with
    | member hm => cases hm
    | nested hm _ => cases hm

/-- An event at its depth below the children of a member of a sequence is at
its depth below the sequence. -/
theorem Event.atDepth_nested {d : Int} {bs : List Block} {c : Block} {e : Event}
    (hc : c ∈ bs) (h : e.atDepth (d + 1) c.children) : e.atDepth d bs := by
  cases e with
  | more => trivial
  | dispatch bType mdb extra =>
    obtain ⟨k, b, hk, hs, hd⟩ := h
    exact ⟨k + 1, b, AtLevel.nested hc hk, hs, by rw [hd]; push_cast; omega⟩

/-- Function `GenBlock` dispatches its block first; the events that follow
come from the walk of the children of the block, one level deeper. -/
theorem GenBlockWith_depth (env : Env)
    (walk : List Block → Int → Walk → Walk × Outcome)
    (hwalk : ∀ bs d w, ∃ rest, (walk bs d w).1.log = w.log ++ rest ∧
      ∀ e ∈ rest, Event.atDepth d bs e)
    (bType : String) (block : MdBlock) (addMoreTag skip : Bool) (w : Walk)
    (hc : block.children = []) :
    ∃ rest, (GenBlockWith env walk bType block addMoreTag skip w).1.log
        = w.log ++ Event.dispatch bType block w.tm.extra :: rest ∧
      ∀ e ∈ rest, Event.atDepth (block.Depth + 1) block.Block.children e := by
  unfold GenBlockWith
  simp only
  split
  · exact ⟨[], by simp, by simp⟩
  · split
    · split
      · split
        · exact ⟨if addMoreTag = true then [Event.more] else [], by
            cases addMoreTag <;> simp, by
            cases addMoreTag <;> simp [Event.atDepth]⟩
        · rename_i blk hg
          have hdep := getChildrenBlocks_depth _ _ hg
          simp only at hdep
          rcases getChildrenBlocks_children _ _ hg with hch | hch
          · simp only at hch
            exact Exists.elim (hwalk _ _ _) fun rest h =>
              ⟨(if addMoreTag = true then [Event.more] else []) ++ rest, by
                rw [h.1]; cases addMoreTag <;> simp, by
                intro e he
                rcases List.mem_append.mp he with he | he
                · cases addMoreTag <;> simp at he
                  subst he; trivial
                · have := h.2 e he
                  rw [hch, hdep] at this
                  exact this⟩
          · simp only at hch
            exact Exists.elim (hwalk _ _ _) fun rest h =>
              ⟨(if addMoreTag = true then [Event.more] else []) ++ rest, by
                rw [h.1]; cases addMoreTag <;> simp, by
                intro e he
                rcases List.mem_append.mp he with he | he
                · cases addMoreTag <;> simp at he
                  subst he; trivial
                · have := h.2 e he
                  rw [hch, hc] at this
                  exact Event.atDepth_nil this⟩
      · exact ⟨if addMoreTag = true then [Event.more] else [], by
          cases addMoreTag <;> simp, by
          cases addMoreTag <;> simp [Event.atDepth]⟩
    · exact ⟨[], by simp, by simp⟩


/-- Events of a dispatch of a member of a sequence, at the depth of the walk of
that sequence. -/
theorem dispatch_atDepth {gen : String → MdBlock → Bool → Bool → Walk → Walk × Outcome}
    (hgen : ∀ bType mdb a s w, mdb.children = [] →
      ∃ rest, (gen bType mdb a s w).1.log = w.log ++ Event.dispatch bType mdb w.tm.extra :: rest ∧
        ∀ e ∈ rest, Event.atDepth (mdb.Depth + 1) mdb.Block.children e)
    {bs : List Block} {block : Block} (hmem : block ∈ bs) {depth : Int}
    (bType : String) (mdb : MdBlock) (a s : Bool) (w : Walk)
    (hnode : sameNode mdb.Block block) (hdepth : mdb.Depth = depth) (hc : mdb.children = []) :
    ∃ rest, (gen bType mdb a s w).1.log = w.log ++ rest ∧
      ∀ e ∈ rest, Event.atDepth depth bs e := by
  obtain ⟨rest, h1, h2⟩ := hgen bType mdb a s w hc
  refine ⟨Event.dispatch bType mdb w.tm.extra :: rest, h1, ?_⟩
  intro e he
  rcases List.mem_cons.mp he with he | he
  · subst he
    exact ⟨0, block, AtLevel.member hmem, hnode, by simp [hdepth]⟩
  · have := h2 e he
    rw [hnode.2.2, hdepth] at this
    exact Event.atDepth_nested hmem this

theorem visit_depth (env : Env)
    (gen : String → MdBlock → Bool → Bool → Walk → Walk × Outcome)
    (hgen : ∀ bType mdb a s w, mdb.children = [] →
      ∃ rest, (gen bType mdb a s w).1.log = w.log ++ Event.dispatch bType mdb w.tm.extra :: rest ∧
        ∀ e ∈ rest, Event.atDepth (mdb.Depth + 1) mdb.Block.children e)
    (blocks bs : List Block) (depth : Int) (index : Nat) (block : Block) (l : Locals) (w : Walk)
    (hmem : block ∈ bs) :
    ∃ rest, (visit env gen blocks depth index block l w).2.1.log = w.log ++ rest ∧
      ∀ e ∈ rest, Event.atDepth depth bs e := by
  unfold visit
  split
  · rename_i l' w' r h
    simp only
    unfold visitClassify at h
    by_cases hgate : w.tm.shouldSkipRender block.ty = true
    · simp only [hgate, if_true] at h
      cases h; exact ⟨[], by simp, by simp⟩
    · simp only [hgate, Bool.false_eq_true, if_false] at h
      generalize (if some block.ty ≠ l.lastBlockType then (0 : Int) else l.sameBlockIdx + 1)
        = idx at h
      by_cases hs : w.tm.FrontMatter.get "IsSetting" = some (.bool true) ∧ block.ty = .code
      · simp only [hs, and_self, if_true] at h
        cases h
        rw [generate_walk]
        exact dispatch_atDepth hgen hmem _ _ _ _ _ (sameNode_refl block) rfl rfl
      · simp only [hs, if_false] at h
        split at h
        · split at h
          · cases h; exact ⟨[], by simp, by simp⟩
          · cases h
        · cases h; exact ⟨[], by simp, by simp⟩
  · rename_i l' w' mdb a act h
    have hw := visitClassify_action_log env gen _ _ _ _ _ _ _ _ _ _ _ h
    obtain ⟨hnode, hdepth⟩ := visitClassify_action_node env gen _ _ _ _ _ _ _ _ _ _ _ h
    obtain ⟨_, hc⟩ := visitClassify_action_ctx env gen _ _ _ _ _ _ _ _ _ _ _ h
    split
    · exact ⟨[], by simp [hw], by simp⟩
    · simp only
      rw [generate_walk, ← hw]
      exact dispatch_atDepth hgen hmem _ _ _ _ _ hnode hdepth hc

theorem walkFrom_depth (env : Env)
    (gen : String → MdBlock → Bool → Bool → Walk → Walk × Outcome)
    (hgen : ∀ bType mdb a s w, mdb.children = [] →
      ∃ rest, (gen bType mdb a s w).1.log = w.log ++ Event.dispatch bType mdb w.tm.extra :: rest ∧
        ∀ e ∈ rest, Event.atDepth (mdb.Depth + 1) mdb.Block.children e)
    (blocks bs : List Block) (depth : Int) (rest : List Block) (hsub : ∀ b ∈ rest, b ∈ bs) :
    ∀ (index : Nat) (l : Locals) (w : Walk),
      ∃ more, (walkFrom env gen blocks depth index rest l w).2.1.log = w.log ++ more ∧
        ∀ e ∈ more, Event.atDepth depth bs e := by
  induction rest with
  | nil => intro index l w; exact ⟨[], by simp [walkFrom], by simp⟩
  | cons block rest ih =>
    intro index l w
    obtain ⟨m1, h1, p1⟩ := visit_depth env gen hgen blocks bs depth index block l w
      (hsub block (List.mem_cons_self _ _))
    unfold walkFrom
    split
    · rename_i l' w' hv
      obtain ⟨m2, h2, p2⟩ := ih (fun b hb => hsub b (List.mem_cons_of_mem _ hb)) (index + 1) l' w'
      rw [hv] at h1
      simp only at h1
      refine ⟨m1 ++ m2, by rw [h2, h1]; simp, ?_⟩
      intro e he
      rcases List.mem_append.mp he with he | he
      · exact p1 e he
      · exact p2 e he
    · exact ⟨m1, h1, p1⟩

/-- Every dispatch of a walk started at depth `d` carries the depth `d` plus
the nesting level of its block, at every nesting budget. -/
theorem GenContentBlocks_depth (env : Env) (n : Nat) :
    ∀ (blocks : List Block) (d : Int) (w : Walk),
      ∃ rest, (GenContentBlocks env n blocks d w).1.log = w.log ++ rest ∧
        ∀ e ∈ rest, Event.atDepth d blocks e := by
  induction n with
  | zero => intro blocks d w; exact ⟨[], by simp [GenContentBlocks], by simp⟩
  | succ n ih =>
    intro blocks d w
    unfold GenContentBlocks GenContentBlocksWith
    exact walkFrom_depth env _ (fun bType mdb a s w hc =>
      GenBlockWith_depth env _ ih bType mdb a s w hc) blocks blocks d blocks
      (fun _ hb => hb) 0 {} w

/-- The walk state that `GenerateTo` returns is the one it had after the front
matter, when `GenFrontMatter` failed, or the one that the walk of the
top-level sequence at depth 0 returns. -/
theorem GenerateTo_walk (env : Env) (out : OutEnv) (n : Nat) (blocks : List Block) (w : Walk)
    (written : String) :
    ∃ tm, (GenerateTo env out n blocks w written).1 = { w with tm := tm } ∨
      (GenerateTo env out n blocks w written).1
        = (GenContentBlocks env n blocks 0 { w with tm := tm }).1 := by
  unfold GenerateTo
  simp only
  split
  · rename_i tm written' hfront
    refine ⟨tm, Or.inr ?_⟩
    split
    · rename_i w' hw
      rw [hw]
      split
      · split <;> rfl
      · split <;> rfl
    · rename_i w' r hne hw
      rw [hw]
  · rename_i tm written' r hne hfront
    exact ⟨tm, Or.inl rfl⟩

set_option maxRecDepth 4000 in
/-- C12. `GenerateTo` walks the top-level sequence at depth 0; `GenBlock`, when
it recurses into the children of a block rendered at depth `Depth`, walks the
child sequence at depth `Depth + 1`; hence every dispatch of a walk started by
`GenerateTo` passes a block of the tree to the render collaborator with `Depth`
equal to the nesting level of that block.  For the sample document
`[quote q [quote r [paragraph c], paragraph d], paragraph p]` the depths are
0, 1, 2, 1, 0. -/
theorem GenerateTo_depth (env : Env) (out : OutEnv) (n : Nat) (blocks : List Block) (w : Walk)
    (written : String) :
    (∃ tm, (GenerateTo env out n blocks w written).1 = { w with tm := tm } ∨
      (GenerateTo env out n blocks w written).1
        = (GenContentBlocks env n blocks 0 { w with tm := tm }).1) ∧
    (∀ (walk : List Block → Int → Walk → Walk × Outcome) (bType : String)
        (block block' : MdBlock) (addMoreTag : Bool) (w0 : Walk),
      (env.render bType block w0.tm.extra).2 = none → block.Block.HasChildren = true →
      getChildrenBlocks { block with Depth := block.Depth + 1 } = .ok block' →
      ∃ w', GenBlockWith env walk bType block addMoreTag false w0
        = walk block'.children (block.Depth + 1) w') ∧
    (∃ rest, (GenerateTo env out n blocks w written).1.log = w.log ++ rest ∧
      ∀ bType mdb extra, Event.dispatch bType mdb extra ∈ rest →
        ∃ (k : Nat) (b : Block), AtLevel k blocks b ∧ sameNode mdb.Block b ∧ mdb.Depth = k) ∧
    (GenerateTo sampleEnv sampleOut 4
        [sampleQuote "q" [sampleQuote "r" [sampleParagraph "c"], sampleParagraph "d"],
          sampleParagraph "p"] { tm := New } "").1.log.filterMap
        (fun e => e.depth.map (fun d => (e.key, d)))
      = [(("quote", "q"), 0), (("quote", "r"), 1), (("paragraph", "c"), 2),
         (("paragraph", "d"), 1), (("paragraph", "p"), 0)] := by
  refine ⟨GenerateTo_walk env out n blocks w written, ?_, ?_, ?_⟩
  · intro walk bType block block' addMoreTag w0 hr hh hg
    have hdep := getChildrenBlocks_depth _ _ hg
    simp only at hdep
    unfold GenBlockWith
    simp only [hr, hh, hg, Bool.not_false, if_true, hdep]
    exact ⟨_, rfl⟩
  · obtain ⟨tm, h | h⟩ := GenerateTo_walk env out n blocks w written
    · exact ⟨[], by rw [h]; simp, by simp⟩
    · obtain ⟨rest, h1, h2⟩ := GenContentBlocks_depth env n blocks 0 { w with tm := tm }
      refine ⟨rest, by rw [h, h1], ?_⟩
      intro bType mdb extra he
      obtain ⟨k, b, hk, hs, hd⟩ := h2 _ he
      exact ⟨k, b, hk, hs, by simpa using hd⟩
  · decide

/-- Witness for C12: the quote `q` of the sample document is rendered at depth
0 and its children are walked at depth 1. -/
theorem GenerateTo_depth_witness :
    ∃ w', GenBlockWith sampleEnv (GenContentBlocks sampleEnv 2) "quote"
        { Block := sampleQuote "q" [sampleParagraph "c"], Depth := 0 } false false { tm := New }
      = GenContentBlocks sampleEnv 2 [sampleParagraph "c"] (0 + 1) w' :=
  (GenerateTo_depth sampleEnv sampleOut 3 [sampleQuote "q" [sampleParagraph "c"]] { tm := New }
    "").2.1 (GenContentBlocks sampleEnv 2) "quote"
    { Block := sampleQuote "q" [sampleParagraph "c"], Depth := 0 }
    { Block := sampleQuote "q" [sampleParagraph "c"], children := [sampleParagraph "c"],
      Depth := 0 + 1 }
    false { tm := New } rfl rfl rfl


/-! ## Block tree walker: the gate over a whole walk -/

theorem lookup_filter_ne {V : Type} (m : StrMap V) (key key' : String) (h : key ≠ key') :
    List.lookup key' (m.filter (fun kv => kv.1 != key)) = List.lookup key' m := by
  induction m with
  | nil => rfl
  | cons kv rest ih =>
    obtain ⟨k, x⟩ := kv
    by_cases hkk : k = key
    · have h1 : (k != key) = false := by simp [hkk]
      have h2 : (key' == k) = false := by simp [hkk, Ne.symm h]
      simp only [List.filter_cons, h1, Bool.false_eq_true, if_false, List.lookup, h2, ih]
    · have h1 : (k != key) = true := by simp [hkk]
      simp only [List.filter_cons, h1, if_true, List.lookup, ih]

theorem StrMap.get_put_ne {V : Type} (m : StrMap V) (key key' : String) (v : V)
    (h : key ≠ key') : (m.put key v).get key' = m.get key' := by
  have hk : (key' == key) = false := by simp [Ne.symm h]
  simp only [StrMap.get, StrMap.put, List.lookup, hk]
  exact lookup_filter_ne m key key' h

theorem ExtendedSyntaxEnabled_of_extFlag {tm tm' : ToMarkdown} (h : extFlag tm' = extFlag tm) :
    tm'.ExtendedSyntaxEnabled = tm.ExtendedSyntaxEnabled := by
  unfold extFlag at h
  simp [ToMarkdown.ExtendedSyntaxEnabled, h]

theorem download_extra (env : Env) (tm : ToMarkdown) (url : String) :
    (download env tm url).1.extra = tm.extra := by
  unfold download
  simp only
  split
  · rfl
  · split <;> rfl

theorem downloadMedia_extra (env : Env) (tm : ToMarkdown) (b : Block) :
    (downloadMedia env tm b).1.extra = tm.extra := by
  unfold downloadMedia
  split
  · split
    · split
      · rfl
      · rename_i url _
        have := download_extra env tm url
        split <;> simp_all
    · split
      · rfl
      · rename_i url _
        have := download_extra env tm url
        split <;> simp_all
    · rfl
  · rfl

theorem injectFileInfo_flag (env : Env) (b : Block) (extra : StrMap ExtraValue) :
    StrMap.get (injectFileInfo env b extra).1 "ExtendedSyntaxEnabled"
      = StrMap.get extra "ExtendedSyntaxEnabled" := by
  unfold injectFileInfo
  simp only
  split
  · rfl
  · simp [StrMap.get_put_ne]

theorem inject_extFlag (env : Env) (tm : ToMarkdown) (mdb : MdBlock) (blocks : List Block)
    (index : Int) : extFlag (inject env tm mdb blocks index).1 = extFlag tm := by
  have hd := downloadMedia_extra env
  have hf := injectFileInfo_flag env
  unfold extFlag inject
  simp only
  split
  · split
    · rfl
    · simp only
      rw [hd]
      split <;> rfl
  · unfold injectBookmarkInfo
    split
    · rfl
    · simp only
      split <;> simp [StrMap.get_put_ne]
  · unfold injectVideoInfo
    split
    · rfl
    · simp [StrMap.get_put_ne]
  · split
    · rename_i h; have := hd tm mdb.Block; rw [h] at this; simp only at this; rw [this]
    · rename_i tm' blk r hne h
      have := hd tm mdb.Block; rw [h] at this; simp only at this
      simp only [hf, this]
  · rfl
  · rfl
  · unfold injectEmbedInfo
    simp only
    split
    · rfl
    · split <;> split <;> split <;> simp [StrMap.get_put_ne]
  · unfold injectCalloutInfo
    split
    · rfl
    · split
      · rfl
      · simp [StrMap.get_put_ne]
  · rfl
  · rfl
  · rfl
  · split
    · rename_i h; have := hd tm mdb.Block; rw [h] at this; simp only at this; rw [this]
    · rename_i tm' blk r hne h
      have := hd tm mdb.Block; rw [h] at this; simp only at this
      simp only [hf, this]
  · rfl
  · rfl
  · exact hf _ _
  · rfl


theorem gateKept_refl (w : Walk) : gateKept w w :=
  ⟨rfl, [], by simp, by simp⟩

theorem gateKept_trans {w1 w2 w3 : Walk} (h12 : gateKept w1 w2) (h23 : gateKept w2 w3) :
    gateKept w1 w3 := by
  obtain ⟨f12, r12, l12, p12⟩ := h12
  obtain ⟨f23, r23, l23, p23⟩ := h23
  refine ⟨f23.trans f12, r12 ++ r23, by rw [l23, l12]; simp, ?_⟩
  intro hoff e he
  rcases List.mem_append.mp he with he | he
  · exact p12 hoff e he
  · exact p23 (by rw [ExtendedSyntaxEnabled_of_extFlag f12]; exact hoff) e he

/-- A step that changes the receiver without touching the flag or the log. -/
theorem gateKept_of_tm {w : Walk} {tm : ToMarkdown} (h : extFlag tm = extFlag w.tm) :
    gateKept w { w with tm := tm } :=
  ⟨h, [], by simp, by simp⟩

theorem GenBlockWith_gate (env : Env)
    (walk : List Block → Int → Walk → Walk × Outcome)
    (hwalk : ∀ bs d w, gateKept w (walk bs d w).1)
    (bType : String) (block : MdBlock) (addMoreTag skip : Bool) (w : Walk)
    (hty : w.tm.ExtendedSyntaxEnabled = false → block.Block.ty ∉ extendedSyntaxBlocks) :
    gateKept w (GenBlockWith env walk bType block addMoreTag skip w).1 := by
  have hfirst : gateKept w
      { w with log := w.log ++ [Event.dispatch bType block w.tm.extra],
               tm := { w.tm with ContentBuffer :=
                 w.tm.ContentBuffer ++ (env.render bType block w.tm.extra).1 } } :=
    ⟨rfl, [Event.dispatch bType block w.tm.extra], rfl, by
      intro hoff e he
      simp only [List.mem_singleton] at he
      subst he
      exact hty hoff⟩
  have hmore : ∀ w0 : Walk, gateKept w0
      (if addMoreTag = true then
        { tm := { w0.tm with ContentBuffer := w0.tm.ContentBuffer ++ moreTag },
          log := w0.log ++ [Event.more] }
      else w0) := by
    intro w0
    cases addMoreTag
    · exact gateKept_refl w0
    · exact ⟨rfl, [Event.more], rfl, by
        intro _ e he
        simp only [List.mem_singleton] at he
        subst he
        trivial⟩
  unfold GenBlockWith
  simp only
  split
  · exact hfirst
  · split
    · split
      · split
        · exact gateKept_trans hfirst (hmore _)
        · exact gateKept_trans (gateKept_trans hfirst (hmore _)) (hwalk _ _ _)
      · exact gateKept_trans hfirst (hmore _)
    · exact hfirst

theorem visit_gate (env : Env)
    (gen : String → MdBlock → Bool → Bool → Walk → Walk × Outcome)
    (hgen : ∀ bType mdb a s w,
      (w.tm.ExtendedSyntaxEnabled = false → mdb.Block.ty ∉ extendedSyntaxBlocks) →
      gateKept w (gen bType mdb a s w).1)
    (blocks : List Block) (depth : Int) (index : Nat) (block : Block) (l : Locals) (w : Walk) :
    gateKept w (visit env gen blocks depth index block l w).2.1 := by
  unfold visit
  by_cases hgate : w.tm.shouldSkipRender block.ty = true
  · simp [visitClassify, hgate, gateKept_refl]
  · have hnot : w.tm.ExtendedSyntaxEnabled = false → block.ty ∉ extendedSyntaxBlocks := by
      intro hoff hmem
      apply hgate
      simp only [extendedSyntaxBlocks, List.mem_cons, List.mem_singleton, List.not_mem_nil,
        or_false] at hmem
      rcases hmem with h | h <;>
        simp [ToMarkdown.shouldSkipRender, hoff, h, blockTypeInExtendedSyntaxBlocks,
          extendedSyntaxBlocks]
    split
    · rename_i l' w' r h
      simp only
      unfold visitClassify at h
      simp only [hgate, Bool.false_eq_true, if_false] at h
      generalize hidx :
        (if some block.ty ≠ l.lastBlockType then (0 : Int) else l.sameBlockIdx + 1) = idx at h
      have hput : extFlag { w.tm with extra := w.tm.extra.put "SameBlockIdx" (.int idx) }
          = extFlag w.tm := by
        simp [extFlag, StrMap.get_put_ne]
      by_cases hs : w.tm.FrontMatter.get "IsSetting" = some (.bool true) ∧ block.ty = .code
      · simp only [hs, and_self, if_true] at h
        cases h
        rw [generate_walk]
        refine gateKept_trans (gateKept_of_tm hput) (hgen _ _ _ _ _ ?_)
        intro hoff
        exact hnot (by rw [← ExtendedSyntaxEnabled_of_extFlag hput]; exact hoff)
      · simp only [hs, if_false] at h
        have hinj := inject_extFlag env
          { w.tm with extra := w.tm.extra.put "SameBlockIdx" (.int idx) }
          { Block := block, Depth := depth } blocks index
        split at h
        · rename_i tm mdb0 hi
          rw [hi] at hinj
          split at h
          · cases h
            exact gateKept_of_tm (hinj.trans hput)
          · cases h
        · rename_i tm mdb0 r0 hne hi
          rw [hi] at hinj
          cases h
          exact gateKept_of_tm (hinj.trans hput)
    · rename_i l' w' mdb a act h
      obtain ⟨hnode, _⟩ := visitClassify_action_node env gen _ _ _ _ _ _ _ _ _ _ _ h
      have hw' : gateKept w w' := by
        unfold visitClassify at h
        simp only [hgate, Bool.false_eq_true, if_false] at h
        generalize hidx :
          (if some block.ty ≠ l.lastBlockType then (0 : Int) else l.sameBlockIdx + 1) = idx at h
        have hput : extFlag { w.tm with extra := w.tm.extra.put "SameBlockIdx" (.int idx) }
            = extFlag w.tm := by
          simp [extFlag, StrMap.get_put_ne]
        by_cases hs : w.tm.FrontMatter.get "IsSetting" = some (.bool true) ∧ block.ty = .code
        · simp only [hs, and_self, if_true] at h
          cases h
        · simp only [hs, if_false] at h
          have hinj := inject_extFlag env
            { w.tm with extra := w.tm.extra.put "SameBlockIdx" (.int idx) }
            { Block := block, Depth := depth } blocks index
          split at h
          · rename_i tm mdb0 hi
            rw [hi] at hinj
            split at h
            · cases h
            · cases h
              exact gateKept_of_tm (hinj.trans hput)
          · cases h
      split
      · exact hw'
      · simp only
        rw [generate_walk]
        refine gateKept_trans hw' (hgen _ _ _ _ _ ?_)
        intro hoff
        rw [hnode.1]
        exact hnot (by rw [← ExtendedSyntaxEnabled_of_extFlag hw'.1]; exact hoff)

theorem walkFrom_gate (env : Env)
    (gen : String → MdBlock → Bool → Bool → Walk → Walk × Outcome)
    (hgen : ∀ bType mdb a s w,
      (w.tm.ExtendedSyntaxEnabled = false → mdb.Block.ty ∉ extendedSyntaxBlocks) →
      gateKept w (gen bType mdb a s w).1)
    (blocks : List Block) (depth : Int) (rest : List Block) :
    ∀ (index : Nat) (l : Locals) (w : Walk),
      gateKept w (walkFrom env gen blocks depth index rest l w).2.1 := by
  induction rest with
  | nil => intro index l w; simp [walkFrom, gateKept_refl]
  | cons block rest ih =>
    intro index l w
    have h1 := visit_gate env gen hgen blocks depth index block l w
    unfold walkFrom
    split
    · rename_i l' w' hv
      rw [hv] at h1
      exact gateKept_trans h1 (ih (index + 1) l' w')
    · exact h1

/-- Over a whole walk, at every nesting level, the extended-syntax flag is
unchanged, and when it is off no block of an extended-syntax type is
dispatched. -/
theorem GenContentBlocks_gate (env : Env) (n : Nat) :
    ∀ (blocks : List Block) (d : Int) (w : Walk),
      gateKept w (GenContentBlocks env n blocks d w).1 := by
  induction n with
  | zero => intro blocks d w; simp [GenContentBlocks, gateKept_refl]
  | succ n ih =>
    intro blocks d w
    unfold GenContentBlocks GenContentBlocksWith
    exact walkFrom_gate env _ (fun bType mdb a s w hty =>
      GenBlockWith_gate env _ ih bType mdb a s w hty) blocks d blocks 0 {} w


/-- C11. With extended-syntax rendering disabled, as it is for a receiver made
by `New`, the iteration of the walker for a bookmark or callout block changes
nothing and goes on with the next sibling: the run-index state and the other
loop variables, the receiver (output buffer, extra map) and the event log (no
render, no walk of the children) are what they were; and over a whole walk
started in such a state no block of these types is dispatched, at any nesting
level.  After `EnableExtendedSyntax` the gate skips no block type, and this
stays so over a whole walk. -/
theorem visit_extended_syntax_gate (env : Env)
    (gen : String → MdBlock → Bool → Bool → Walk → Walk × Outcome)
    (blocks : List Block) (depth : Int) (index : Nat) (block : Block) (l : Locals) (w : Walk)
    (hoff : w.tm.ExtendedSyntaxEnabled = false) (hty : block.ty ∈ extendedSyntaxBlocks) :
    New.ExtendedSyntaxEnabled = false ∧
    visit env gen blocks depth index block l w = (l, w, .ok) ∧
    (∀ (n : Nat) (bs : List Block) (d : Int),
      ∃ rest, (GenContentBlocks env n bs d w).1.log = w.log ++ rest ∧
        ∀ bType mdb extra, Event.dispatch bType mdb extra ∈ rest →
          mdb.Block.ty ∉ extendedSyntaxBlocks) ∧
    (∀ (tm : ToMarkdown) (target : String) (ty : BlockType),
      (tm.EnableExtendedSyntax target).shouldSkipRender ty = false ∧
      ∀ (n : Nat) (bs : List Block) (d : Int) (log : List Event),
        (GenContentBlocks env n bs d
          { tm := tm.EnableExtendedSyntax target, log := log }).1.tm.shouldSkipRender ty
          = false) := by
  refine ⟨rfl, ?_, ?_, ?_⟩
  · have hskip : w.tm.shouldSkipRender block.ty = true := by
      simp only [extendedSyntaxBlocks, List.mem_cons, List.mem_singleton, List.not_mem_nil,
        or_false] at hty
      rcases hty with h | h <;>
        simp [ToMarkdown.shouldSkipRender, hoff, h, blockTypeInExtendedSyntaxBlocks,
          extendedSyntaxBlocks]
    simp [visit, visitClassify, hskip]
  · intro n bs d
    obtain ⟨_, rest, h1, h2⟩ := GenContentBlocks_gate env n bs d w
    exact ⟨rest, h1, fun bType mdb extra he => h2 hoff _ he⟩
  · intro tm target ty
    have h : (tm.EnableExtendedSyntax target).ExtendedSyntaxEnabled = true := by
      simp [ToMarkdown.EnableExtendedSyntax, ToMarkdown.ExtendedSyntaxEnabled, StrMap.get,
        StrMap.put, List.lookup]
    refine ⟨by simp [ToMarkdown.shouldSkipRender, h], ?_⟩
    intro n bs d log
    obtain ⟨hf, _⟩ := GenContentBlocks_gate env n bs d
      { tm := tm.EnableExtendedSyntax target, log := log }
    have := ExtendedSyntaxEnabled_of_extFlag hf
    simp only at this
    simp [ToMarkdown.shouldSkipRender, this, h]

/-- Witness for C11: a callout block in a walk started from `New`. -/
theorem visit_extended_syntax_gate_witness :
    visit sampleEnv (GenBlock sampleEnv 1) [.mk .callout {} []] 0 0 (.mk .callout {} []) {}
      { tm := New } = ({}, { tm := New }, .ok) :=
  (visit_extended_syntax_gate sampleEnv (GenBlock sampleEnv 1) [.mk .callout {} []] 0 0
    (.mk .callout {} []) {} { tm := New } rfl (by decide)).2.1

/-! ## Page front matter: claims -/

theorem lookup_perm {V : Type} {l₁ l₂ : List (String × V)} (h : l₁.Perm l₂) (key : String) :
    (l₁.map Prod.fst).Nodup → l₁.lookup key = l₂.lookup key := by
  induction h with
  | nil => intro _; rfl
  | cons x _ ih =>
    intro hnd
    obtain ⟨k, v⟩ := x
    simp only [List.map_cons, List.nodup_cons] at hnd
    simp only [List.lookup_cons, ih hnd.2]
  | swap x y l =>
    intro hnd
    obtain ⟨kx, vx⟩ := x
    obtain ⟨ky, vy⟩ := y
    simp only [List.map_cons, List.nodup_cons, List.mem_cons, not_or] at hnd
    have hne : ky ≠ kx := hnd.1.1
    simp only [List.lookup_cons]
    by_cases h1 : key = kx
    · subst h1
      have hb : (key == ky) = false := beq_eq_false_iff_ne.mpr (Ne.symm hne)
      simp [hb]
    · have hb : (key == kx) = false := beq_eq_false_iff_ne.mpr h1
      simp [hb]
  | trans h₁₂ _ ih₁ ih₂ =>
    intro hnd
    rw [ih₁ hnd]
    exact ih₂ ((h₁₂.map Prod.fst).nodup_iff.mp hnd)

theorem injectProperties_returns (pageProps : List (String × DatabasePageProperty)) :
    ∀ tm : ToMarkdown, (∀ kv ∈ pageProps, ∃ v, frontMatterValue kv.2 = .ok v) →
      ∃ tm', injectProperties pageProps tm = .ok tm' := by
  induction pageProps with
  | nil => intro tm _; exact ⟨tm, rfl⟩
  | cons kv rest ih =>
    intro tm h
    obtain ⟨key, property⟩ := kv
    obtain ⟨v, hv⟩ := h (key, property) (List.mem_cons_self _ _)
    have hrest : ∀ kv ∈ rest, ∃ v, frontMatterValue kv.2 = .ok v :=
      fun kv hkv => h kv (List.mem_cons_of_mem _ hkv)
    cases v with
    | none =>
      simp only [injectProperties, injectFrontMatter, hv]
      exact ih tm hrest
    | some fmv =>
      simp only [injectProperties, injectFrontMatter, hv]
      exact ih _ hrest

theorem WithFrontMatter_sets_Title (env : Env) (tm tm' : ToMarkdown) (cover : Option Cover)
    (pageProps : StrMap DatabasePageProperty) (title : String)
    (htitle : ConvertRichText (propertyAt pageProps "Name").Title = .ok title)
    (h : WithFrontMatter env tm ⟨cover, .database pageProps⟩ = .ok tm') :
    tm'.FrontMatter.get "Title" = some (.str title) := by
  unfold WithFrontMatter at h
  cases hc : injectFrontMatterCover env tm cover with
  | error p => simp [hc] at h
  | ok tm1 =>
    cases hp : injectProperties pageProps tm1 with
    | error p => simp [hc, hp] at h
    | ok tm2 =>
      simp only [hc, hp, htitle, Except.ok.injEq] at h
      rw [← h]
      exact StrMap.get_put _ _ _

/-- C21. For every page of a database whose name composes to `title`, every
return of `WithFrontMatter` leaves `FrontMatter["Title"]` equal to
`ConvertRichText` of the title of the property `Name` (the zero property when
the page has none), whatever the properties, a property named `Title` included,
stored before; the same holds when the properties are visited in any other
order; and the call does return when the cover step and the extraction of
every property return. -/
theorem WithFrontMatter_Title (env : Env) (tm : ToMarkdown) (cover : Option Cover)
    (pageProps : StrMap DatabasePageProperty) (title : String)
    (htitle : ConvertRichText (propertyAt pageProps "Name").Title = .ok title) :
    (∀ tm', WithFrontMatter env tm ⟨cover, .database pageProps⟩ = .ok tm' →
      tm'.FrontMatter.get "Title" = some (.str title)) ∧
    (∀ order tm', List.Perm order pageProps → (order.map Prod.fst).Nodup →
      WithFrontMatter env tm ⟨cover, .database order⟩ = .ok tm' →
      tm'.FrontMatter.get "Title" = some (.str title)) ∧
    ((∃ tm1, injectFrontMatterCover env tm cover = .ok tm1) →
      (∀ kv ∈ pageProps, ∃ v, frontMatterValue kv.2 = .ok v) →
      ∃ tm', WithFrontMatter env tm ⟨cover, .database pageProps⟩ = .ok tm') := by
  refine ⟨fun tm' h => WithFrontMatter_sets_Title env tm tm' cover pageProps title htitle h,
    ?_, ?_⟩
  · intro order tm' hperm hnd h
    have hname : propertyAt order "Name" = propertyAt pageProps "Name" := by
      unfold propertyAt StrMap.get
      rw [lookup_perm hperm "Name" hnd]
    exact WithFrontMatter_sets_Title env tm tm' cover order title (by rw [hname]; exact htitle) h
  · rintro ⟨tm1, hc⟩ hprops
    obtain ⟨tm2, hp⟩ := injectProperties_returns pageProps tm1 hprops
    refine ⟨{ tm2 with FrontMatter := tm2.FrontMatter.put "Title" (.str title) }, ?_⟩
    simp only [WithFrontMatter, hc, hp, htitle]

/-- Witness for C21: a page with a rich text property `Title` holding `Other`
and the name `Hello`, the property `Title` visited first or last. -/
theorem WithFrontMatter_Title_witness :
    (∃ tm', WithFrontMatter sampleEnv New
        ⟨none, .database
          [("Title", { Typ := "rich_text", Value := .richText (some [sampleRun "Other"]) }),
           ("Name", { Typ := "title", Title := [sampleRun "Hello"],
                      Value := .richText (some [sampleRun "Hello"]) })]⟩ = .ok tm' ∧
      tm'.FrontMatter.get "Title" = some (.str "Hello")) ∧
    (WithFrontMatter sampleEnv New
        ⟨none, .database
          [("Name", { Typ := "title", Title := [sampleRun "Hello"],
                      Value := .richText (some [sampleRun "Hello"]) }),
           ("Title", { Typ := "rich_text", Value := .richText (some [sampleRun "Other"]) })]⟩).map
        (fun tm' => tm'.FrontMatter.get "Title") = .ok (some (.str "Hello")) :=
  have h := WithFrontMatter_Title sampleEnv New none
    [("Title", { Typ := "rich_text", Value := .richText (some [sampleRun "Other"]) }),
     ("Name", { Typ := "title", Title := [sampleRun "Hello"],
                Value := .richText (some [sampleRun "Hello"]) })] "Hello" (by decide)
  ⟨(h.2.2 ⟨New, rfl⟩ (by
      intro kv hkv
      simp only [List.mem_cons, List.mem_singleton, List.not_mem_nil, or_false] at hkv
      rcases hkv with rfl | rfl
      · exact ⟨some (.str "Other"), by decide⟩
      · exact ⟨some (.str "Hello"), by decide⟩)).elim
    (fun tm' h' => ⟨tm', h', h.1 tm' h'⟩), by decide⟩

/-! ## Local file name of a download: claims -/

theorem splitChars_ne_nil (sep : Char) (cs : List Char) : splitChars sep cs ≠ [] := by
  induction cs with
  | nil => simp [splitChars]
  | cons c cs ih =>
    unfold splitChars
    split
    · simp
    · split <;> simp

/-- Go `strings.Split` returns at least one piece: every path has a tail. -/
theorem Split_tail (s : String) (sep : Char) : ∃ front tail, Split s sep = front ++ [tail] := by
  rcases List.eq_nil_or_concat (Split s sep) with h | ⟨front, tail, h⟩
  · exact absurd (List.map_eq_nil_iff.mp h) (splitChars_ne_nil sep s.data)
  · exact ⟨front, tail, by rw [h, List.concat_eq_append]⟩

theorem strAtIndex_last (front : List String) (tail : String) :
    strAtIndex (front ++ [tail]) (((front ++ [tail]).length : Int) - 1) = .ok tail := by
  have h : (((front ++ [tail]).length : Int) - 1) = (front.length : Int) := by simp
  rw [h]
  simp [strAtIndex]

theorem strAtIndex_parent (front : List String) (parent tail : String) :
    strAtIndex (front ++ [parent] ++ [tail]) (((front ++ [parent] ++ [tail]).length : Int) - 2)
      = .ok parent := by
  have h : (((front ++ [parent] ++ [tail]).length : Int) - 2) = (front.length : Int) := by
    simp
  have hlt : ¬ ((front.length : Int) < 0) := by omega
  have hget : (front ++ [parent] ++ [tail])[front.length]? = some parent := by
    rw [List.append_assoc, List.getElem?_append_right (le_refl _)]
    simp
  rw [h]
  simp only [strAtIndex, hlt, if_false, Int.toNat_ofNat, hget]

theorem Sprintf_host_name (host name : String) :
    Sprintf "%s_%s" [host, name] = host ++ "_" ++ name := by
  apply String.ext
  have h : "%s_%s".data = ['%', 's', '_', '%', 's'] := rfl
  simp [Sprintf, h, sprintfChars, String.data_append]

theorem imageFilename_plain (u : URL) (front : List String) (tail : String)
    (hsplit : Split u.Path '/' = front ++ [tail]) (hpre : HasPrefix tail "Untitled." = false) :
    imageFilename u = .ok tail := by
  simp only [imageFilename, hsplit, strAtIndex_last, Except.bind, hpre]
  rfl

theorem imageFilename_parent (u : URL) (front : List String) (parent tail : String)
    (hsplit : Split u.Path '/' = front ++ [parent] ++ [tail])
    (hpre : HasPrefix tail "Untitled." = true) :
    imageFilename u = .ok (parent ++ Ext u.Path) := by
  simp only [imageFilename, hsplit, strAtIndex_last, strAtIndex_parent, Except.bind, hpre]
  rfl

theorem imageFilename_no_parent (u : URL) (tail : String)
    (hsplit : Split u.Path '/' = [tail]) (hpre : HasPrefix tail "Untitled." = true) :
    imageFilename u = .error .indexOutOfRange := by
  have h := strAtIndex_last [] tail
  simp only [List.nil_append] at h
  simp only [imageFilename, hsplit, h, Except.bind, hpre]
  simp [strAtIndex]

/-- The file operations decide nothing about the name: when the directory and
the file can be created, the name that `saveTo` yields is the name it
returns. -/
theorem saveTo_returns_name (fs : FsEnv) (rawURL distDir : String) (u : URL) (name : String)
    (hparse : fs.Parse rawURL = .ok u) (hname : imageFilename u = .ok name)
    (hmk : fs.MkdirAll distDir = none) (hcreate : ∀ path, fs.Create path = none) :
    saveTo fs rawURL distDir
      = .ok (u.Hostname ++ "_" ++ name, fs.Copy (fs.Join distDir (u.Hostname ++ "_" ++ name))) := by
  simp only [saveTo, hparse, hname, Except.bind, Sprintf_host_name, hmk, hcreate]

/-- A path that is empty or starts with `/`, as the path of every URL with a
host is, never makes the derivation of the file name fail. -/
theorem imageFilename_rooted (u : URL) (h : u.Path.data = [] ∨ u.Path.data.head? = some '/') :
    ∃ name, imageFilename u = .ok name := by
  obtain ⟨front, tail, hsplit⟩ := Split_tail u.Path '/'
  cases hpre : HasPrefix tail "Untitled." with
  | false => exact ⟨_, imageFilename_plain u front tail hsplit hpre⟩
  | true =>
    rcases List.eq_nil_or_concat front with hf | ⟨front', parent, hf⟩
    all_goals try rw [List.concat_eq_append] at hf
    · exfalso
      subst hf
      simp only [List.nil_append, Split] at hsplit
      rcases h with h | h
      · rw [h] at hsplit
        simp only [splitChars, List.map_cons, List.map_nil, List.cons.injEq, and_true] at hsplit
        rw [← hsplit] at hpre
        revert hpre
        decide
      · cases hd : u.Path.data with
        | nil => rw [hd] at h; simp at h
        | cons c cs =>
          rw [hd] at h hsplit
          simp only [List.head?_cons, Option.some.injEq] at h
          subst h
          have hne := splitChars_ne_nil '/' cs
          simp only [splitChars, if_true, List.map_cons] at hsplit
          cases hs : splitChars '/' cs with
          | nil => exact hne hs
          | cons a as => rw [hs] at hsplit; simp at hsplit
    · subst hf
      exact ⟨_, imageFilename_parent u front' parent tail hsplit hpre⟩

/-- The name that `saveTo` returns without an error is the host name, `_` and
the value of `imageFilename`. -/
theorem saveTo_name_of_ok (fs : FsEnv) (rawURL distDir : String) (u : URL) (name : String)
    (hparse : fs.Parse rawURL = .ok u) (h : saveTo fs rawURL distDir = .ok (name, none)) :
    ∃ f, imageFilename u = .ok f ∧ name = u.Hostname ++ "_" ++ f := by
  unfold saveTo at h
  simp only [hparse] at h
  cases hf : imageFilename u with
  | error p => rw [hf] at h; simp [Except.bind] at h
  | ok f =>
    refine ⟨f, rfl, ?_⟩
    rw [hf] at h
    simp only [Except.bind, Sprintf_host_name] at h
    cases hm : fs.MkdirAll distDir with
    | some err => rw [hm] at h; simp at h
    | none =>
      rw [hm] at h
      simp only at h
      cases hc : fs.Create (fs.Join distDir (u.Hostname ++ "_" ++ f)) with
      | some err => rw [hc] at h; simp at h
      | none =>
        rw [hc] at h
        simp only [Except.ok.injEq, Prod.mk.injEq] at h
        exact h.1.symm

/-- The file name depends on the parsed URL alone: two calls of `saveTo` for
URLs that parse alike, in any directories and any states of the file system,
that return a name without an error return the same name. -/
theorem saveTo_same_URL_same_name (fs fs' : FsEnv) (rawURL distDir distDir' : String) (u : URL)
    (name name' : String)
    (hparse : fs.Parse rawURL = .ok u) (hparse' : fs'.Parse rawURL = .ok u)
    (h : saveTo fs rawURL distDir = .ok (name, none))
    (h' : saveTo fs' rawURL distDir' = .ok (name', none)) : name = name' := by
  obtain ⟨f, hf, hn⟩ := saveTo_name_of_ok fs rawURL distDir u name hparse h
  obtain ⟨f', hf', hn'⟩ := saveTo_name_of_ok fs' rawURL distDir' u name' hparse' h'
  rw [hf] at hf'
  simp only [Except.ok.injEq] at hf'
  rw [hn, hn', hf']

/-- The file name by the segments of the path, when the directory and the file
can be created.  For a path with the last segment `tail`: when `tail` does not
begin with `Untitled.`, `saveTo` returns the host name, `_` and `tail`; when it
does and a segment `parent` comes before it, `saveTo` returns the host name,
`_`, `parent` and the extension of the path; when it does and `tail` is the
only segment, `saveTo` panics. -/
theorem saveTo_name_by_segments (fs : FsEnv) (rawURL distDir : String) (u : URL)
    (front : List String) (tail : String)
    (hparse : fs.Parse rawURL = .ok u) (hsplit : Split u.Path '/' = front ++ [tail])
    (hmk : fs.MkdirAll distDir = none) (hcreate : ∀ path, fs.Create path = none) :
    (HasPrefix tail "Untitled." = false →
      saveTo fs rawURL distDir
        = .ok (u.Hostname ++ "_" ++ tail, fs.Copy (fs.Join distDir (u.Hostname ++ "_" ++ tail)))) ∧
    (HasPrefix tail "Untitled." = true → ∀ front' parent, front = front' ++ [parent] →
      saveTo fs rawURL distDir
        = .ok (u.Hostname ++ "_" ++ (parent ++ Ext u.Path),
            fs.Copy (fs.Join distDir (u.Hostname ++ "_" ++ (parent ++ Ext u.Path))))) ∧
    (HasPrefix tail "Untitled." = true → front = [] →
      saveTo fs rawURL distDir = .error .indexOutOfRange) := by
  refine ⟨?_, ?_, ?_⟩
  · intro hpre
    exact saveTo_returns_name fs rawURL distDir u tail hparse
      (imageFilename_plain u front tail hsplit hpre) hmk hcreate
  · intro hpre front' parent hf
    subst hf
    exact saveTo_returns_name fs rawURL distDir u _ hparse
      (imageFilename_parent u front' parent tail hsplit hpre) hmk hcreate
  · intro hpre hf
    subst hf
    simp only [saveTo, hparse, imageFilename_no_parent u tail hsplit hpre, Except.bind]

/-- For a URL whose path is empty or starts with `/`, as the path of every URL
with a host is, `saveTo` does not panic. -/
theorem saveTo_rooted_returns (fs : FsEnv) (rawURL distDir : String) (u : URL)
    (hparse : fs.Parse rawURL = .ok u)
    (h : u.Path.data = [] ∨ u.Path.data.head? = some '/') :
    ∃ r, saveTo fs rawURL distDir = .ok r := by
  obtain ⟨f, hf⟩ := imageFilename_rooted u h
  simp only [saveTo, hparse, hf, Except.bind]
  cases fs.MkdirAll distDir with
  | some err => exact ⟨_, rfl⟩
  | none =>
    simp only
    cases fs.Create (fs.Join distDir (Sprintf "%s_%s" [u.Hostname, f])) with
    | some err => exact ⟨_, rfl⟩
    | none => exact ⟨_, rfl⟩

/-- C22 (failing input). The relative reference `Untitled.png` is a parseable
URL whose path is `Untitled.png`: its only segment begins with the placeholder
prefix and has no parent segment, and `saveTo` panics with an index out of
range; the URLs `https://example.org/static/Untitled.png` and
`https://example.org/static/a.png` are saved as `example.org_static.png` and
`example.org_a.png`. -/
theorem saveTo_untitled_without_parent :
    sampleFs.Parse "Untitled.png" = .ok ⟨"Untitled.png", ""⟩ ∧
    Split "Untitled.png" '/' = ["Untitled.png"] ∧
    saveTo sampleFs "Untitled.png" "static/img" = .error .indexOutOfRange ∧
    saveTo sampleFs "https://example.org/static/Untitled.png" "static/img"
      = .ok ("example.org_static.png", none) ∧
    saveTo sampleFs "https://example.org/static/a.png" "static/img"
      = .ok ("example.org_a.png", none) := by
  refine ⟨?_, ?_, ?_, ?_, ?_⟩ <;> decide

/-! ## Table conversion: claims -/

theorem cellColumns_append (xs ys : List (List RichText)) :
    cellColumns (xs ++ ys)
      = (cellColumns xs).bind fun a => (cellColumns ys).map fun b => a ++ b := by
  induction xs with
  | nil =>
    simp only [List.nil_append, cellColumns, Except.bind]
    cases cellColumns ys with
    | error p => rfl
    | ok b => simp [Except.map]
  | cons x xs ih =>
    rw [List.cons_append, cellColumns, cellColumns, ih]
    cases ConvertRichText x with
    | error p => simp [Except.bind]
    | ok text =>
      cases cellColumns xs with
      | error p => simp [Except.bind]
      | ok a =>
        cases cellColumns ys with
        | error p => simp [Except.bind, Except.map]
        | ok b => simp [Except.bind, Except.map, String.append_assoc]

theorem ConvertRichText_single (rich : RichText) :
    ConvertRichText [rich] = ConvertRich rich := by
  unfold ConvertRichText
  simp only [convertRichTextFrom]
  cases ConvertRich rich with
  | error p => rfl
  | ok s => simp

theorem cellLoop_columns (cell : List RichText) :
    ∀ rowMd, cellLoop cell rowMd
      = (cellColumns (cell.map fun run => [run])).map (fun cols => rowMd ++ cols) := by
  induction cell with
  | nil => intro rowMd; simp [cellLoop, cellColumns, Except.map]
  | cons rich rest ih =>
    intro rowMd
    simp only [cellLoop, List.map_cons, cellColumns, ConvertRichText_single, ih]
    cases ConvertRich rich with
    | error p => rfl
    | ok a =>
      cases cellColumns (rest.map fun run => [run]) with
      | error p => rfl
      | ok cols => simp [Except.map, String.append_assoc]

theorem rowLoop_columns (len : Nat) (rest : List (List RichText)) :
    ∀ (i : Nat) (rowMd : String), rest ≠ [] → i + rest.length = len →
      rowLoop len i rest rowMd
        = (cellColumns (rest.flatten.map fun run => [run])).map
            (fun cols => (if i = 0 then rowMd ++ "|" else rowMd) ++ cols ++ "\n") := by
  induction rest with
  | nil => intro i rowMd h; exact absurd rfl h
  | cons cell rest ih =>
    intro i rowMd _ hlen
    simp only [rowLoop, cellLoop_columns, List.flatten_cons, List.map_append, cellColumns_append]
    cases hc : cellColumns (cell.map fun run => [run]) with
    | error p => rfl
    | ok a =>
      cases rest with
      | nil =>
        have hi : (i : Int) = (len : Int) - 1 := by simp at hlen; omega
        simp [rowLoop, hi, Except.map, Except.bind, cellColumns]
      | cons cell' rest' =>
        have hi : ¬ (i : Int) = (len : Int) - 1 := by simp at hlen; omega
        have h := ih (i + 1) ((if i = 0 then rowMd ++ "|" else rowMd) ++ a) (by simp)
          (by simp at hlen ⊢; omega)
        simp only [Except.map, hi, if_false, h]
        cases cellColumns ((cell' :: rest').flatten.map fun run => [run]) with
        | error p => rfl
        | ok b => simp [Except.bind, Except.map, String.append_assoc]

/-- What `ConvertRow` writes for a row with at least one cell: one column for
each text run of the row, the runs of all cells taken in order; a cell
contributes as many columns as it has runs. -/
theorem ConvertRow_column_per_run (r : Block) (h : r.data.Cells ≠ []) :
    ConvertRow r = rowLinePerCell (r.data.Cells.flatten.map fun run => [run]) := by
  unfold ConvertRow rowLinePerCell
  rw [rowLoop_columns _ _ 0 "" h (by simp)]
  cases cellColumns (r.data.Cells.flatten.map fun run => [run]) with
  | error p => rfl
  | ok cols => simp [Except.map]

theorem join_singletons (cells : List (List RichText)) (h : ∀ cell ∈ cells, cell.length = 1) :
    (cells.flatten.map fun run => [run]) = cells := by
  induction cells with
  | nil => rfl
  | cons cell rest ih =>
    have h1 := h cell (List.mem_cons_self _ _)
    have h2 := ih (fun c hc => h c (List.mem_cons_of_mem _ hc))
    match cell, h1 with
    | [run], _ => simp [h2]

/-- Where `ConvertRow` has one column per cell: a row with at least one cell in
which every cell holds exactly one text run. -/
theorem ConvertRow_one_run_per_cell (r : Block) (h : r.data.Cells ≠ [])
    (hone : ∀ cell ∈ r.data.Cells, cell.length = 1) :
    ConvertRow r = rowLinePerCell r.data.Cells := by
  rw [ConvertRow_column_per_run r h, join_singletons _ hone]

set_option maxRecDepth 4000 in
/-- C23 (failing inputs). A row whose second cell is empty is written with two
columns where the line with one column per cell has three; a row whose only
cell holds two runs is written with two columns where the line with one column
per cell has one; in a table whose rows have two cells each, the header and the
separator have two columns and the row with an empty cell has one. -/
theorem ConvertRow_empty_and_multi_run_cells :
    ConvertRow (sampleRow [[sampleRun "a"], [], [sampleRun "c"]]) = .ok "| a | c |\n" ∧
    rowLinePerCell [[sampleRun "a"], [], [sampleRun "c"]] = .ok "| a |  | c |\n" ∧
    ConvertRow (sampleRow [[sampleRun "a", sampleRun "b"]]) = .ok "| a | b |\n" ∧
    rowLinePerCell [[sampleRun "a", sampleRun "b"]] = .ok "| ab |\n" ∧
    ConvertTable [sampleRow [[sampleRun "x"], [sampleRun "y"]], sampleRow [[sampleRun "a"], []]]
      = .ok "| | |\n| - | - |\n| x | y |\n| a |\n" ∧
    columns "| | |\n" = 2 ∧ columns "| - | - |\n" = 2 ∧ columns "| x | y |\n" = 2 ∧
      columns "| a |\n" = 1 := by
  refine ⟨?_, ?_, ?_, ?_, ?_, ?_, ?_, ?_, ?_⟩ <;> decide

end NotionSite
